import Mathlib

/-!
Shallow embedding of `src/LoadFile_Creator_4.1_Testing.py` (LoadFileCreator),
with theorems settling the frozen claims about Bates numbering, record
construction, page expansion, serialization, email-family grouping and the
post-run integrity checks.

Python machine-level details are modelled as follows: strings are Lean
`String`/`List Char`; `dict`s keyed by strings are association lists (the
runs in question have pairwise-distinct keys); Python `None` is `Option.none`;
functions that can raise return `Option`/early-exit values; the external
collaborators (Tika parsing, pdf2image rasterization, the interpreter's
string `hash`) are explicit function parameters.
-/

namespace LoadfileCreator

set_option maxRecDepth 4000

/-! ### Decimal rendering and parsing

Python's `'{:0Nd}'.format(value)` renders the decimal digits of `value`,
left-padded with `'0'` to width `N`; `int(s)` parses a digit string.
-/

/-- The ASCII digit character for a digit value `d` (meaningful for `d < 10`). -/
def digitChar (d : Nat) : Char := Char.ofNat (48 + d)

/-- Big-endian decimal digit characters of `n`, with structural fuel
(`fuel = n + 1` always suffices, see `toDecAux_eq_of_lt`). -/
def toDecAux : Nat → Nat → List Char
  | 0, _ => []
  | fuel + 1, n =>
    if n < 10 then [digitChar n]
    else toDecAux fuel (n / 10) ++ [digitChar (n % 10)]

/-- Decimal representation of `n`, as Python's `str`/`'{:d}'.format` produce it. -/
def toDec (n : Nat) : List Char := toDecAux (n + 1) n

/-- Left-pad a character list with `'0'` to width `w`
(Python `'{:0Nd}'` padding; no truncation when already longer). -/
def padLeft (w : Nat) (s : List Char) : List Char :=
  List.replicate (w - s.length) '0' ++ s

/-- `LoadFileCreator.get_bates`: `'{}{:08d}'.format(prefix, value)` —
the Bates number string for a prefix and a numeric value. -/
def get_bates ( pfx : String) (value : Nat) (ndigit : Nat := 8) : String :=
  pfx ++ String.mk (padLeft ndigit (toDec value))

/-- Big-endian decimal value of a digit-character list (the numeric value
`int(s)` computes on an all-digit string). -/
def fromDecBE (s : List Char) : Nat :=
  s.foldl (fun acc c => 10 * acc + (c.toNat - 48)) 0

/-- Model of Python `int(s)` restricted to the strings this program feeds it:
`some` of the value on a nonempty all-digit string, `none` (a raised
`ValueError`) otherwise. -/
def parseDec (s : List Char) : Option Nat :=
  if s ≠ [] ∧ s.all Char.isDigit then some (fromDecBE s) else none

/-- The numeric suffix of a Bates string produced with prefix `pfx`:
the decimal value of the characters after the prefix. -/
def suffixOf ( pfx : String) (b : String) : Nat :=
  fromDecBE (b.data.drop pfx.data.length)

theorem digitChar_toNat {d : Nat} (hd : d < 10) : (digitChar d).toNat = 48 + d := by
  interval_cases d <;> decide

theorem digitChar_isDigit {d : Nat} (hd : d < 10) : (digitChar d).isDigit = true := by
  interval_cases d <;> decide

theorem toDecAux_all_digit : ∀ fuel n, (toDecAux fuel n).all Char.isDigit = true := by
  intro fuel
  induction fuel with
  | zero => intro n; rfl
  | succ f ih =>
    intro n
    by_cases h : n < 10
    · simp [toDecAux, h, digitChar_isDigit]
    · have h10 : n % 10 < 10 := Nat.mod_lt _ (by omega)
      simp [toDecAux, h, List.all_append, ih (n / 10), digitChar_isDigit h10]

theorem toDecAux_ne_nil : ∀ fuel n, 0 < fuel → toDecAux fuel n ≠ [] := by
  intro fuel n hf
  match fuel, hf with
  | f + 1, _ =>
    by_cases h : n < 10
    · simp [toDecAux, h]
    · simp [toDecAux, h]

theorem fromDecBE_aux_acc (s : List Char) (a : Nat) (hs : s.all Char.isDigit = true) :
    s.foldl (fun acc c => 10 * acc + (c.toNat - 48)) a =
      a * 10 ^ s.length + fromDecBE s := by
  induction s generalizing a with
  | nil => simp [fromDecBE]
  | cons c cs ih =>
    simp only [List.all_cons, Bool.and_eq_true] at hs
    simp only [List.foldl_cons, fromDecBE, List.length_cons]
    rw [ih _ hs.2, ih (10 * 0 + (c.toNat - 48)) hs.2]
    ring

theorem fromDecBE_append (s t : List Char) (hs : s.all Char.isDigit = true)
    (ht : t.all Char.isDigit = true) :
    fromDecBE (s ++ t) = fromDecBE s * 10 ^ t.length + fromDecBE t := by
  unfold fromDecBE
  rw [List.foldl_append]
  exact fromDecBE_aux_acc t _ ht

theorem fromDecBE_replicate_zero (k : Nat) :
    fromDecBE (List.replicate k '0') = 0 := by
  induction k with
  | zero => rfl
  | succ m ih =>
    have : List.replicate (m + 1) '0' = '0' :: List.replicate m '0' := rfl
    unfold fromDecBE at ih ⊢
    simp only [this, List.foldl_cons]
    simpa using ih

theorem fromDecBE_padLeft (w : Nat) (s : List Char) (hs : s.all Char.isDigit = true) :
    fromDecBE (padLeft w s) = fromDecBE s := by
  unfold padLeft fromDecBE
  rw [List.foldl_append]
  have h0 : List.foldl (fun acc c => 10 * acc + (c.toNat - 48)) 0
      (List.replicate (w - s.length) '0') = 0 := fromDecBE_replicate_zero _
  rw [h0]

theorem fromDecBE_toDecAux : ∀ fuel n, n < 10 ^ fuel →
    fromDecBE (toDecAux fuel n) = n := by
  intro fuel
  induction fuel with
  | zero => intro n hn; interval_cases n; rfl
  | succ f ih =>
    intro n hn
    by_cases h : n < 10
    · simp [toDecAux, h, fromDecBE, digitChar_toNat h]
    · have h10 : n % 10 < 10 := Nat.mod_lt _ (by omega)
      have hdiv : n / 10 < 10 ^ f := by
        rw [Nat.div_lt_iff_lt_mul (by omega)]
        calc n < 10 ^ (f + 1) := hn
        _ = 10 ^ f * 10 := by ring
      rw [toDecAux, if_neg h,
        fromDecBE_append _ _ (toDecAux_all_digit f (n / 10))
          (by simp [digitChar_isDigit h10]),
        ih (n / 10) hdiv]
      simp only [List.length_singleton, pow_one, fromDecBE, List.foldl_cons,
        List.foldl_nil]
      rw [digitChar_toNat h10]
      omega

theorem lt_ten_pow_succ (n : Nat) : n < 10 ^ (n + 1) := by
  calc n < 2 ^ n := Nat.lt_two_pow n
  _ ≤ 10 ^ n := Nat.pow_le_pow_left (by omega) n
  _ < 10 ^ (n + 1) := Nat.pow_lt_pow_right (by omega) (Nat.lt_succ_self n)

theorem fromDecBE_toDec (n : Nat) : fromDecBE (toDec n) = n :=
  fromDecBE_toDecAux (n + 1) n (lt_ten_pow_succ n)

theorem toDec_all_digit (n : Nat) : (toDec n).all Char.isDigit = true :=
  toDecAux_all_digit (n + 1) n

theorem toDec_ne_nil (n : Nat) : toDec n ≠ [] :=
  toDecAux_ne_nil (n + 1) n (Nat.succ_pos n)

theorem padLeft_all_digit (w : Nat) (s : List Char) (hs : s.all Char.isDigit = true) :
    (padLeft w s).all Char.isDigit = true := by
  unfold padLeft
  have h0 : (List.replicate (w - s.length) '0').all Char.isDigit = true := by
    simp only [List.all_eq_true]
    intro c hc
    rw [List.eq_of_mem_replicate hc]
    decide
  rw [List.all_append, hs, h0]
  rfl

theorem get_bates_data ( pfx : String) (v n : Nat) :
    (get_bates pfx v n).data = pfx.data ++ padLeft n (toDec v) := by
  unfold get_bates
  rw [String.data_append]

theorem fromDecBE_padLeft_toDec (w v : Nat) :
    fromDecBE (padLeft w (toDec v)) = v := by
  rw [fromDecBE_padLeft w _ (toDec_all_digit v), fromDecBE_toDec]

/-- The numeric suffix of a generated Bates string recovers the value. -/
theorem suffixOf_get_bates ( pfx : String) (v n : Nat) :
    suffixOf pfx (get_bates pfx v n) = v := by
  unfold suffixOf
  rw [get_bates_data, List.drop_left]
  exact fromDecBE_padLeft_toDec n v

/-- `get_bates` is injective in the numeric value (for a fixed prefix and width). -/
theorem get_bates_injective ( pfx : String) (n : Nat) {a b : Nat}
    (h : get_bates pfx a n = get_bates pfx b n) : a = b := by
  have : suffixOf pfx (get_bates pfx a n) = suffixOf pfx (get_bates pfx b n) := by
    rw [h]
  rwa [suffixOf_get_bates, suffixOf_get_bates] at this

/-! ### File list, sorting and Bates pre-assignment (`process_files`)

`process_files` collects the input files, sorts them with
`all_files.sort(key=lambda x: os.path.basename(x).lower())`, and pre-assigns
`bates_assignments[fname] = self.get_bates(self.prefix, bates_counter + i)`
for `i, fname in enumerate(all_files)`; `get_bates_for_file` looks a file up
in that dict with fallback `self.get_bates(self.prefix, bates_counter)`
(`bates_counter` is initialized to `self.start_value` and never mutated).
-/

/-- `os.path.basename`: the part of the path after the last separator
(Windows `ntpath` treats both `/` and the backslash as separators). -/
def basename (s : String) : String :=
  String.mk ((s.data.reverse.takeWhile (fun c => !(c = '/' || c = '\\'))).reverse)

/-- Python `str.lower()` (per-character; the inputs in question are ASCII
paths, where this coincides with Python). -/
def lowerStr (s : String) : String := String.mk (s.data.map Char.toLower)

/-- The sort key `os.path.basename(x).lower()` of `process_files`. -/
def sortKey (f : String) : String := lowerStr (basename f)

/-- The alphabetical (case-insensitive basename) sort of the input file list. -/
def sortFiles (files : List String) : List String :=
  files.mergeSort (fun a b => decide (sortKey a ≤ sortKey b))

/-- The Bates pre-assignment dict built before any worker task starts:
file `i` of the (sorted) list maps to `get_bates prefix (counter + i)`. -/
def bates_assignments ( pfx : String) (counter : Nat) : List String → List (String × String)
  | [] => []
  | f :: fs => (f, get_bates pfx counter) :: bates_assignments pfx (counter + 1) fs

/-- `get_bates_for_file`: `bates_assignments.get(fname, self.get_bates(self.prefix, bates_counter))`. -/
def get_bates_for_file (assignments : List (String × String)) ( pfx : String)
    (bates_counter : Nat) (fname : String) : String :=
  (assignments.lookup fname).getD (get_bates pfx bates_counter)

/-- The per-file Bates numbers a run records, as a function of the order in
which worker tasks reach `get_bates_for_file` (each task only reads the
precomputed assignment map). -/
def runBegBates (assignments : List (String × String)) ( pfx : String)
    (bates_counter : Nat) (order : List String) : List (String × String) :=
  order.map (fun f => (f, get_bates_for_file assignments pfx bates_counter f))

theorem bates_assignments_keys ( pfx : String) (c : Nat) (fs : List String) :
    (bates_assignments pfx c fs).map Prod.fst = fs := by
  induction fs generalizing c with
  | nil => rfl
  | cons f fs ih => simp [bates_assignments, ih]

theorem bates_assignments_lookup_of_nodup ( pfx : String) (c : Nat)
    (fs : List String) (hnd : fs.Nodup) :
    ∀ i (hi : i < fs.length),
      (bates_assignments pfx c fs).lookup (fs.get ⟨i, hi⟩) =
        some (get_bates pfx (c + i)) := by
  induction fs generalizing c with
  | nil => intro i hi; simp at hi
  | cons f fs ih =>
    intro i hi
    match i with
    | 0 => simp [bates_assignments, List.lookup]
    | j + 1 =>
      have hj : j < fs.length := by
        simpa [List.length_cons, Nat.succ_lt_succ_iff] using hi
      have hmem : fs.get ⟨j, hj⟩ ∈ fs := List.get_mem fs j hj
      have hne : fs.get ⟨j, hj⟩ ≠ f := by
        intro h
        exact (List.nodup_cons.mp hnd).1 (h ▸ hmem)
      have : (fs.get ⟨j, hj⟩ == f) = false := beq_eq_false_iff_ne.mpr hne
      simp only [List.get_cons_succ, bates_assignments, List.lookup, this]
      have := ih (c + 1) (List.nodup_cons.mp hnd).2 j hj
      rw [this]
      ring_nf

theorem bates_assignments_lookup_total ( pfx : String) (c : Nat)
    (fs : List String) {f : String} (hf : f ∈ fs) :
    ∃ b, (bates_assignments pfx c fs).lookup f = some b := by
  induction fs generalizing c with
  | nil => cases hf
  | cons g fs ih =>
    by_cases h : f = g
    · subst h
      exact ⟨get_bates pfx c, by simp [bates_assignments, List.lookup]⟩
    · rcases List.mem_cons.mp hf with h' | h'
      · exact absurd h' h
      · have hbeq : (f == g) = false := beq_eq_false_iff_ne.mpr h
        rcases ih (c + 1) h' with ⟨b, hb⟩
        exact ⟨b, by simp [bates_assignments, List.lookup, hbeq, hb]⟩

theorem bates_assignments_lookup_mem ( pfx : String) (c : Nat)
    (fs : List String) {f : String} {b : String}
    (h : (bates_assignments pfx c fs).lookup f = some b) :
    ∃ i, ∃ (hi : i < fs.length), fs.get ⟨i, hi⟩ = f ∧ b = get_bates pfx (c + i) := by
  induction fs generalizing c with
  | nil => simp [bates_assignments, List.lookup] at h
  | cons g fs ih =>
    by_cases hfg : (f == g) = true
    · have : f = g := beq_iff_eq.mp hfg
      subst this
      simp [bates_assignments, List.lookup] at h
      exact ⟨0, by simp, rfl, by simpa using h.symm⟩
    · have hfalse : (f == g) = false := by
        cases hb : (f == g) with
        | true => exact absurd hb hfg
        | false => rfl
      simp only [bates_assignments, List.lookup, hfalse] at h
      rcases ih (c + 1) h with ⟨i, hi, hget, hb⟩
      exact ⟨i + 1, by simpa [Nat.succ_lt_succ_iff] using hi,
        by simpa using hget, by rw [hb]; ring_nf⟩

theorem bates_assignments_suffixes ( pfx : String) (c : Nat) (fs : List String) :
    (bates_assignments pfx c fs).map (fun x => suffixOf pfx x.2) =
      List.range' c fs.length := by
  induction fs generalizing c with
  | nil => rfl
  | cons f fs ih =>
    simp only [bates_assignments, List.map_cons, List.length_cons,
      suffixOf_get_bates, List.range'_succ, ih]

theorem lookup_map_pair {g : String → String} {l : List String} {f : String}
    (hf : f ∈ l) :
    (l.map (fun x => (x, g x))).lookup f = some (g f) := by
  induction l with
  | nil => cases hf
  | cons x xs ih =>
    by_cases h : f = x
    · subst h; simp [List.lookup]
    · have hbeq : (f == x) = false := beq_eq_false_iff_ne.mpr h
      rcases List.mem_cons.mp hf with h' | h'
      · exact absurd h' h
      · simp only [List.map_cons, List.lookup, hbeq]
        exact ih h'

theorem sortFiles_perm (files : List String) : (sortFiles files).Perm files :=
  List.mergeSort_perm files _

theorem sortFiles_pairwise (files : List String) :
    (sortFiles files).Pairwise (fun a b => sortKey a ≤ sortKey b) := by
  have h := @List.sorted_mergeSort String
    (fun a b : String => decide (sortKey a ≤ sortKey b))
    (fun a b c hab hbc => by
      simp only [decide_eq_true_eq] at *
      exact le_trans hab hbc)
    (fun a b => by
      simp only [Bool.or_eq_true, decide_eq_true_eq]
      exact le_total _ _)
    files
  exact h.imp (fun hab => by simpa using hab)

/-- C1. In `process_files`, the Bates pre-assignment built before any worker
task starts maps the `i`-th file of the list sorted by case-insensitive
basename to the Bates number with numeric suffix `start + i`; it is total on
the file list and injective; the multiset of numeric suffixes it assigns is
exactly the contiguous range `[start, start + N)` in sorted list order; and
the number a task later reads through `get_bates_for_file` is the
precomputed one regardless of the order in which tasks run. -/
theorem c1_bates_preassignment ( pfx : String) (start : Nat)
    (input : List String) (hnd : input.Nodup) :
    (∀ i (hi : i < (sortFiles input).length),
        (bates_assignments pfx start (sortFiles input)).lookup
            ((sortFiles input).get ⟨i, hi⟩) =
          some (get_bates pfx (start + i))) ∧
    (∀ f g bf bg,
        (bates_assignments pfx start (sortFiles input)).lookup f = some bf →
        (bates_assignments pfx start (sortFiles input)).lookup g = some bg →
        bf = bg → f = g) ∧
    (bates_assignments pfx start (sortFiles input)).map
        (fun x => suffixOf pfx x.2) =
      List.range' start (sortFiles input).length ∧
    (sortFiles input).Perm input ∧
    (sortFiles input).Pairwise (fun a b => sortKey a ≤ sortKey b) ∧
    (∀ (order : List String) (f : String), f ∈ order → f ∈ sortFiles input →
        (runBegBates (bates_assignments pfx start (sortFiles input)) pfx start
            order).lookup f =
          (bates_assignments pfx start (sortFiles input)).lookup f) := by
  have hperm : (sortFiles input).Perm input := sortFiles_perm input
  have hnd' : (sortFiles input).Nodup := (hperm.nodup_iff).mpr hnd
  refine ⟨?_, ?_, ?_, hperm, sortFiles_pairwise input, ?_⟩
  · exact bates_assignments_lookup_of_nodup pfx start _ hnd'
  · intro f g bf bg hf hg hfg
    rcases bates_assignments_lookup_mem pfx start _ hf with ⟨i, hi, hfi, hbi⟩
    rcases bates_assignments_lookup_mem pfx start _ hg with ⟨j, hj, hgj, hbj⟩
    have : start + i = start + j :=
      get_bates_injective pfx 8 (by rw [← hbi, ← hbj]; exact hfg)
    have hij : i = j := by omega
    rw [← hfi, ← hgj]
    congr 1
    exact Fin.ext hij
  · exact bates_assignments_suffixes pfx start _
  · intro order f hfo hfs
    rcases bates_assignments_lookup_total pfx start _ hfs with ⟨b, hb⟩
    unfold runBegBates
    rw [lookup_map_pair hfo]
    unfold get_bates_for_file
    rw [hb]
    rfl

/-- Witness for C1 at a concrete input: three files whose case-insensitive
basenames sort them as `a.eml, B.pdf, c.txt`. -/
theorem c1_bates_preassignment_witness :
    (["B.pdf", "a.eml", "c.txt"] : List String).Nodup ∧
    ((∀ i (hi : i < (sortFiles ["B.pdf", "a.eml", "c.txt"]).length),
        (bates_assignments "ABC" 1000 (sortFiles ["B.pdf", "a.eml", "c.txt"])).lookup
            ((sortFiles ["B.pdf", "a.eml", "c.txt"]).get ⟨i, hi⟩) =
          some (get_bates "ABC" (1000 + i))) ∧
    (∀ f g bf bg,
        (bates_assignments "ABC" 1000 (sortFiles ["B.pdf", "a.eml", "c.txt"])).lookup f = some bf →
        (bates_assignments "ABC" 1000 (sortFiles ["B.pdf", "a.eml", "c.txt"])).lookup g = some bg →
        bf = bg → f = g) ∧
    (bates_assignments "ABC" 1000 (sortFiles ["B.pdf", "a.eml", "c.txt"])).map
        (fun x => suffixOf "ABC" x.2) =
      List.range' 1000 (sortFiles ["B.pdf", "a.eml", "c.txt"]).length ∧
    (sortFiles ["B.pdf", "a.eml", "c.txt"]).Perm ["B.pdf", "a.eml", "c.txt"] ∧
    (sortFiles ["B.pdf", "a.eml", "c.txt"]).Pairwise (fun a b => sortKey a ≤ sortKey b) ∧
    (∀ (order : List String) (f : String), f ∈ order →
        f ∈ sortFiles ["B.pdf", "a.eml", "c.txt"] →
        (runBegBates (bates_assignments "ABC" 1000 (sortFiles ["B.pdf", "a.eml", "c.txt"]))
            "ABC" 1000 order).lookup f =
          (bates_assignments "ABC" 1000 (sortFiles ["B.pdf", "a.eml", "c.txt"])).lookup f)) :=
  ⟨by decide, c1_bates_preassignment "ABC" 1000 ["B.pdf", "a.eml", "c.txt"] (by decide)⟩

/-- C10. `get_bates_for_file` on a file name absent from the precomputed
assignment map returns `get_bates prefix bates_counter` with the unchanged
counter (the counter is initialized to the start value and never
incremented), whose numeric suffix is the run's start value; for a run with
at least one input file this is exactly the Bates number already assigned to
the first file in sorted order, so the fallback duplicates it. -/
theorem c10_fallback_duplicates_first_bates ( pfx : String) (start : Nat)
    (f0 : String) (rest : List String) (g : String)
    (hg : (bates_assignments pfx start (f0 :: rest)).lookup g = none) :
    get_bates_for_file (bates_assignments pfx start (f0 :: rest)) pfx start g =
      get_bates pfx start ∧
    suffixOf pfx
        (get_bates_for_file (bates_assignments pfx start (f0 :: rest)) pfx start g) =
      start ∧
    get_bates_for_file (bates_assignments pfx start (f0 :: rest)) pfx start g =
      get_bates_for_file (bates_assignments pfx start (f0 :: rest)) pfx start f0 := by
  have hfall : get_bates_for_file (bates_assignments pfx start (f0 :: rest)) pfx start g =
      get_bates pfx start := by
    unfold get_bates_for_file
    rw [hg]
    rfl
  have hf0 : (bates_assignments pfx start (f0 :: rest)).lookup f0 =
      some (get_bates pfx start) := by
    simp [bates_assignments, List.lookup]
  refine ⟨hfall, ?_, ?_⟩
  · rw [hfall, suffixOf_get_bates]
  · rw [hfall]
    unfold get_bates_for_file
    rw [hf0]
    rfl

/-- Witness for C10: a file name `zz` absent from a one-file run duplicates
the first (and only) file's Bates number. -/
theorem c10_fallback_duplicates_first_bates_witness :
    (bates_assignments "PL" 8378 ["a.txt"]).lookup "zz" = none ∧
    (get_bates_for_file (bates_assignments "PL" 8378 ["a.txt"]) "PL" 8378 "zz" =
      get_bates "PL" 8378 ∧
    suffixOf "PL"
        (get_bates_for_file (bates_assignments "PL" 8378 ["a.txt"]) "PL" 8378 "zz") =
      8378 ∧
    get_bates_for_file (bates_assignments "PL" 8378 ["a.txt"]) "PL" 8378 "zz" =
      get_bates_for_file (bates_assignments "PL" 8378 ["a.txt"]) "PL" 8378 "a.txt") :=
  ⟨by decide, c10_fallback_duplicates_first_bates "PL" 8378 "a.txt" [] "zz" (by decide)⟩

/-! ### Page expansion (`_process_pdf_pages`, `_process_tiff_pages`)

Both derive per-page Bates numbers via
`self.get_bates(self.prefix, int(base_bates.replace(self.prefix, '')) + page_num)`
and append one `opt_data` entry per rendered page. In `_process_pdf_pages`
the whole chunk loop sits inside a single `try`, so an exception raised for
one chunk (e.g. by `pdf2image.convert_from_path`) is caught by the `except`
after the loop and ends processing of that file's remaining chunks.
-/

/-- The scanning loop of Python `s.replace(pat, '')`, with structural fuel
(`fuel = s.length` always suffices: each step consumes at least one
character). -/
def replaceAllAux (pat : List Char) : Nat → List Char → List Char
  | 0, s => s
  | _ + 1, [] => []
  | fuel + 1, c :: cs =>
    if pat.isPrefixOf (c :: cs) then replaceAllAux pat fuel ((c :: cs).drop pat.length)
    else c :: replaceAllAux pat fuel cs

/-- Python `s.replace(pat, '')`: remove all (left-to-right, non-overlapping)
occurrences of `pat`; the empty pattern leaves the string unchanged
(as `s.replace('', '')` does). -/
def replaceAll (pat s : List Char) : List Char :=
  if pat = [] then s else replaceAllAux pat s.length s

theorem replaceAllAux_fuel (pat : List Char) (hp : pat ≠ []) :
    ∀ f1 f2 s, s.length ≤ f1 → s.length ≤ f2 →
      replaceAllAux pat f1 s = replaceAllAux pat f2 s := by
  have hlen : 0 < pat.length := List.length_pos.mpr hp
  intro f1
  induction f1 with
  | zero =>
    intro f2 s h1 _
    have hs : s = [] := List.eq_nil_of_length_eq_zero (by omega)
    subst hs
    cases f2 <;> rfl
  | succ f ih =>
    intro f2 s h1 h2
    match s with
    | [] => cases f2 <;> rfl
    | c :: cs =>
      have hf2 : ∃ g, f2 = g + 1 := by
        cases f2 with
        | zero => simp at h2
        | succ g => exact ⟨g, rfl⟩
      obtain ⟨g, rfl⟩ := hf2
      show (if pat.isPrefixOf (c :: cs) then
          replaceAllAux pat f ((c :: cs).drop pat.length)
        else c :: replaceAllAux pat f cs) =
        (if pat.isPrefixOf (c :: cs) then
          replaceAllAux pat g ((c :: cs).drop pat.length)
        else c :: replaceAllAux pat g cs)
      by_cases hpre : pat.isPrefixOf (c :: cs) = true
      · rw [if_pos hpre, if_pos hpre]
        have hd : ((c :: cs).drop pat.length).length = cs.length + 1 - pat.length := by
          simp [List.length_drop]
        apply ih
        · rw [hd]
          simp only [List.length_cons] at h1
          omega
        · rw [hd]
          simp only [List.length_cons] at h2
          omega
      · rw [if_neg hpre, if_neg hpre]
        have := ih g cs (by simp only [List.length_cons] at h1; omega)
          (by simp only [List.length_cons] at h2; omega)
        rw [this]

theorem replaceAllAux_of_no_nondigit_occurrence (pat : List Char)
    (hc : ∃ c ∈ pat, c.isDigit = false) :
    ∀ fuel s, s.all Char.isDigit = true → replaceAllAux pat fuel s = s := by
  intro fuel
  induction fuel with
  | zero => intro s _; rfl
  | succ f ih =>
    intro s hall
    match s with
    | [] => rfl
    | c :: cs =>
      rcases hc with ⟨x, hmem, hx⟩
      have hnp : pat.isPrefixOf (c :: cs) = false := by
        cases hb : pat.isPrefixOf (c :: cs) with
        | false => rfl
        | true =>
          have hpre : pat <+: (c :: cs) := List.isPrefixOf_iff_prefix.mp hb
          have hxin : x ∈ c :: cs := hpre.subset hmem
          have := (List.all_eq_true.mp hall) x hxin
          rw [hx] at this
          cases this
      have hcs : cs.all Char.isDigit = true := by
        simp only [List.all_cons, Bool.and_eq_true] at hall
        exact hall.2
      show (if pat.isPrefixOf (c :: cs) then _ else _) = _
      rw [hnp]
      simp only [Bool.false_eq_true, if_false]
      rw [ih cs hcs]

theorem replaceAll_of_no_nondigit_occurrence (pat : List Char)
    (hc : ∃ c ∈ pat, c.isDigit = false) :
    ∀ s, s.all Char.isDigit = true → replaceAll pat s = s := by
  intro s hall
  have hp : pat ≠ [] := by
    rcases hc with ⟨c, hmem, _⟩
    intro h; rw [h] at hmem; cases hmem
  unfold replaceAll
  rw [if_neg hp, replaceAllAux_of_no_nondigit_occurrence pat hc _ _ hall]

theorem replaceAll_self_append (pat rest : List Char) (hp : pat ≠ []) :
    replaceAll pat (pat ++ rest) = replaceAll pat rest := by
  have hlen : 0 < pat.length := List.length_pos.mpr hp
  unfold replaceAll
  rw [if_neg hp, if_neg hp]
  match pat, hp with
  | p :: ps, hp =>
    have hpre : ((p :: ps).isPrefixOf ((p :: ps) ++ rest)) = true :=
      List.isPrefixOf_iff_prefix.mpr (List.prefix_append _ _)
    have hL : ((p :: ps) ++ rest).length = ((ps ++ rest).length) + 1 := by
      simp
    rw [hL]
    show (if (p :: ps).isPrefixOf (p :: (ps ++ rest)) then
        replaceAllAux (p :: ps) (ps ++ rest).length
          ((p :: (ps ++ rest)).drop (p :: ps).length)
      else _) = _
    simp only [List.cons_append] at hpre
    rw [hpre, if_pos rfl]
    have hdrop : (p :: (ps ++ rest)).drop (p :: ps).length = rest := by
      rw [show (p :: (ps ++ rest)) = (p :: ps) ++ rest from rfl, List.drop_left]
    rw [hdrop]
    apply replaceAllAux_fuel _ hp
    · simp only [List.length_append]
      omega
    · omega

/-- `int(base_bates.replace(prefix, ''))` recovers the numeric value of a
Bates string generated by `get_bates`, provided the prefix contains a
non-digit character (true of the program's prefix `PL_WEATHERFORD`). -/
theorem parse_base_bates ( pfx : String) (v : Nat)
    (hnd : ∃ c ∈ pfx.data, c.isDigit = false) :
    parseDec (replaceAll pfx.data (get_bates pfx v 8).data) = some v := by
  rw [get_bates_data]
  have hp : pfx.data ≠ [] := by
    rcases hnd with ⟨c, hmem, _⟩
    intro h; rw [h] at hmem; cases hmem
  rw [replaceAll_self_append _ _ hp,
    replaceAll_of_no_nondigit_occurrence _ hnd _
      (padLeft_all_digit 8 _ (toDec_all_digit v))]
  have hne : padLeft 8 (toDec v) ≠ [] := by
    unfold padLeft
    intro h
    rcases List.append_eq_nil.mp h with ⟨_, h2⟩
    exact toDec_ne_nil v h2
  unfold parseDec
  rw [if_pos ⟨hne, padLeft_all_digit 8 _ (toDec_all_digit v)⟩,
    fromDecBE_padLeft_toDec]

/-- One element of `self.opt_data` as appended by the page loops. In the
source the page-count slot holds the integer `total_pages` on the first page
and `''` otherwise; here it carries the rendered form (`str` of the value)
that `write_opt_file` prints. -/
structure OptEntry where
  bates : String
  volume : String
  path : String
  first_page : String
  npages : String
deriving DecidableEq, Repr

/-- `os.path.join` for the fixed four-component joins of the page loops
(the script runs under Windows `ntpath`, whose separator is a backslash). -/
def joinPath (parts : List String) : String := String.intercalate "\\" parts

/-- The `opt_data` entry appended for zero-based page `page_num` of a file
whose parsed base value is `baseVal` and which has `total` pages. -/
def mkPageEntry ( pfx volume : String) (baseVal total page_num : Nat) : OptEntry :=
  { bates := get_bates pfx (baseVal + page_num)
    volume := volume
    path := joinPath [volume, "IMAGES", "0000", get_bates pfx (baseVal + page_num) ++ ".tiff"]
    first_page := if page_num = 0 then "Y" else ""
    npages := if page_num = 0 then String.mk (toDec total) else "" }

/-- The chunk loop of `_process_pdf_pages` from chunk start `cs`
(`for chunk_start in range(0, total_pages, chunk_size)`).
`render a b` models `pdf2image.convert_from_path(..., first_page=a, last_page=b)`:
`some k` is a successful return of `k` page images, `none` a raised
exception, which the single `except` outside the loop catches — ending the
loop, hence the `[]` (no further entries) on `none`. -/
def processChunksFrom ( pfx base_bates volume : String)
    (render : Nat → Nat → Option Nat) (total chunk : Nat) (cs : Nat) : List OptEntry :=
  if h : 0 < chunk ∧ cs < total then
    match render (cs + 1) (min (cs + chunk) total) with
    | none => []
    | some k =>
      match parseDec (replaceAll pfx.data base_bates.data) with
      | none => []
      | some v =>
        ((List.range k).map (fun i => mkPageEntry pfx volume v total (cs + i))) ++
          processChunksFrom pfx base_bates volume render total chunk (cs + chunk)
  else []
termination_by total - cs
decreasing_by
  omega

/-- `_process_pdf_pages`: the opt entries it appends for one PDF with
`total` pages, processed in chunks of `chunk` pages. -/
def processPdfPages ( pfx base_bates volume : String)
    (render : Nat → Nat → Option Nat) (total chunk : Nat) : List OptEntry :=
  processChunksFrom pfx base_bates volume render total chunk 0

/-- `_process_tiff_pages`: one entry per frame `i in range(npages)` of a
multi-frame TIFF, with the same Bates arithmetic as the PDF loop. -/
def processTiffPages ( pfx base_bates volume : String) (npages : Nat) : List OptEntry :=
  match parseDec (replaceAll pfx.data base_bates.data) with
  | none => []
  | some v => (List.range npages).map (fun i => mkPageEntry pfx volume v npages i)

theorem range'_map_entry (f : Nat → OptEntry) (cs k : Nat) :
    (List.range k).map (fun i => f (cs + i)) = (List.range' cs k).map f := by
  rw [List.range'_eq_map_range, List.map_map]
  rfl

theorem processChunksFrom_success ( pfx base volume : String)
    (render : Nat → Nat → Option Nat) (total chunk v : Nat)
    (hparse : parseDec (replaceAll pfx.data base.data) = some v)
    (hchunk : 0 < chunk)
    (hrender : ∀ cs, cs < total →
      render (cs + 1) (min (cs + chunk) total) = some (min (cs + chunk) total - cs)) :
    ∀ k cs, total - cs ≤ k →
      processChunksFrom pfx base volume render total chunk cs =
        (List.range' cs (total - cs)).map (fun p => mkPageEntry pfx volume v total p) := by
  intro k
  induction k with
  | zero =>
    intro cs hk
    have hn : ¬ (0 < chunk ∧ cs < total) := by omega
    rw [processChunksFrom.eq_def, dif_neg hn]
    have h0 : total - cs = 0 := by omega
    rw [h0]
    rfl
  | succ n ih =>
    intro cs hk
    by_cases h : cs < total
    · rw [processChunksFrom.eq_def, dif_pos ⟨hchunk, h⟩, hrender cs h, hparse]
      simp only []
      rw [ih (cs + chunk) (by omega), range'_map_entry]
      rw [← List.map_append]
      congr 1
      by_cases hc : cs + chunk ≤ total
      · have h1 : min (cs + chunk) total - cs = chunk := by omega
        have h2 : total - (cs + chunk) = total - cs - chunk := by omega
        rw [h1, h2]
        have := List.range'_append cs chunk (total - cs - chunk) 1
        simp only [one_mul] at this
        rw [this]
        congr 1
        omega
      · have h1 : min (cs + chunk) total - cs = total - cs := by omega
        have h2 : total - (cs + chunk) = 0 := by omega
        rw [h1, h2]
        simp
    · rw [processChunksFrom.eq_def, dif_neg (by omega)]
      have h0 : total - cs = 0 := by omega
      rw [h0]
      rfl

theorem processChunksFrom_fail_now ( pfx base volume : String)
    (render : Nat → Nat → Option Nat) (total chunk cs : Nat)
    (hchunk : 0 < chunk) (h : cs < total)
    (hfail : render (cs + 1) (min (cs + chunk) total) = none) :
    processChunksFrom pfx base volume render total chunk cs = [] := by
  rw [processChunksFrom.eq_def, dif_pos ⟨hchunk, h⟩, hfail]

theorem processChunksFrom_failure ( pfx base volume : String)
    (render : Nat → Nat → Option Nat) (total chunk v fcs : Nat)
    (hparse : parseDec (replaceAll pfx.data base.data) = some v)
    (hchunk : 0 < chunk) (hf : fcs < total)
    (hfail : render (fcs + 1) (min (fcs + chunk) total) = none)
    (hok : ∀ cs, cs < fcs →
      render (cs + 1) (min (cs + chunk) total) = some (min (cs + chunk) total - cs)) :
    ∀ k cs, fcs - cs ≤ k → cs ≤ fcs → chunk ∣ (fcs - cs) →
      processChunksFrom pfx base volume render total chunk cs =
        (List.range' cs (fcs - cs)).map (fun p => mkPageEntry pfx volume v total p) := by
  intro k
  induction k with
  | zero =>
    intro cs hk hle _
    have hcs : cs = fcs := by omega
    subst hcs
    rw [processChunksFrom_fail_now pfx base volume render total chunk cs hchunk hf hfail]
    have h0 : cs - cs = 0 := by omega
    rw [h0]
    rfl
  | succ n ih =>
    intro cs hk hle hdvd
    by_cases hcs : cs = fcs
    · subst hcs
      rw [processChunksFrom_fail_now pfx base volume render total chunk cs hchunk hf hfail]
      have h0 : cs - cs = 0 := by omega
      rw [h0]
      rfl
    · have hlt : cs < fcs := by omega
      rcases hdvd with ⟨m, hm⟩
      have hm1 : 1 ≤ m := by
        rcases Nat.eq_zero_or_pos m with h0 | h1
        · rw [h0, Nat.mul_zero] at hm; omega
        · exact h1
      have hstep : cs + chunk ≤ fcs := by
        have : chunk * 1 ≤ chunk * m := Nat.mul_le_mul_left chunk hm1
        omega
      have hltt : cs < total := by omega
      rw [processChunksFrom.eq_def, dif_pos ⟨hchunk, hltt⟩, hok cs hlt, hparse]
      simp only []
      have hdvd' : chunk ∣ (fcs - (cs + chunk)) := by
        refine ⟨m - 1, ?_⟩
        match m, hm1 with
        | mm + 1, _ =>
          rw [Nat.mul_succ] at hm
          simp only [Nat.add_sub_cancel]
          omega
      rw [ih (cs + chunk) (by omega) hstep hdvd', range'_map_entry, ← List.map_append]
      congr 1
      have h1 : min (cs + chunk) total - cs = chunk := by omega
      have h2 : fcs - (cs + chunk) = fcs - cs - chunk := by omega
      rw [h1, h2]
      have := List.range'_append cs chunk (fcs - cs - chunk) 1
      simp only [one_mul] at this
      rw [this]
      congr 1
      omega

/-- C4. For a paginated file (PDF processed by `_process_pdf_pages`, or a
multi-frame TIFF processed by `_process_tiff_pages`) whose base Bates number
is `get_bates pfx v` and whose rasterization succeeds on every chunk, page
expansion appends exactly one opt entry per page in page order; page `p`'s
Bates number is `get_bates pfx (v + p)` (same prefix, same zero-padding
scheme, numeric suffix `v + p`); the page-0 entry carries first-page flag
`"Y"` and the total page count, and every later entry leaves both blank.
The non-digit hypothesis on the prefix (true of the program's
`PL_WEATHERFORD`) makes `int(base_bates.replace(prefix, ''))` recover `v`. -/
theorem c4_page_expansion ( pfx volume : String)
    (render : Nat → Nat → Option Nat) (total chunk v : Nat)
    (hnd : ∃ c ∈ pfx.data, c.isDigit = false) (hchunk : 0 < chunk)
    (hrender : ∀ cs, cs < total →
      render (cs + 1) (min (cs + chunk) total) = some (min (cs + chunk) total - cs)) :
    processPdfPages pfx (get_bates pfx v 8) volume render total chunk =
      (List.range total).map (fun p => mkPageEntry pfx volume v total p) ∧
    processTiffPages pfx (get_bates pfx v 8) volume total =
      (List.range total).map (fun p => mkPageEntry pfx volume v total p) ∧
    (∀ p, (mkPageEntry pfx volume v total p).bates = get_bates pfx (v + p) ∧
      suffixOf pfx (mkPageEntry pfx volume v total p).bates = v + p ∧
      (mkPageEntry pfx volume v total p).first_page = (if p = 0 then "Y" else "") ∧
      (mkPageEntry pfx volume v total p).npages =
        (if p = 0 then String.mk (toDec total) else "")) := by
  have hparse := parse_base_bates pfx v hnd
  refine ⟨?_, ?_, ?_⟩
  · unfold processPdfPages
    rw [processChunksFrom_success pfx _ volume render total chunk v hparse hchunk
      hrender total 0 (by omega)]
    rw [List.range_eq_range']
    simp
  · unfold processTiffPages
    rw [hparse]
  · intro p
    refine ⟨rfl, ?_, rfl, rfl⟩
    exact suffixOf_get_bates pfx (v + p) 8

/-- Witness for C4: a 3-page file with base Bates `get_bates "ABC" 1003`,
chunk size 5, rasterization returning every requested page. -/
theorem c4_page_expansion_witness :
    ((∃ c ∈ "ABC".data, c.isDigit = false) ∧ 0 < 5) ∧
    (processPdfPages "ABC" (get_bates "ABC" 1003) "VOL1"
        (fun a b => some (b + 1 - a)) 3 5 =
      (List.range 3).map (fun p => mkPageEntry "ABC" "VOL1" 1003 3 p) ∧
    processTiffPages "ABC" (get_bates "ABC" 1003) "VOL1" 3 =
      (List.range 3).map (fun p => mkPageEntry "ABC" "VOL1" 1003 3 p) ∧
    (∀ p, (mkPageEntry "ABC" "VOL1" 1003 3 p).bates = get_bates "ABC" (1003 + p) ∧
      suffixOf "ABC" (mkPageEntry "ABC" "VOL1" 1003 3 p).bates = 1003 + p ∧
      (mkPageEntry "ABC" "VOL1" 1003 3 p).first_page = (if p = 0 then "Y" else "") ∧
      (mkPageEntry "ABC" "VOL1" 1003 3 p).npages =
        (if p = 0 then String.mk (toDec 3) else ""))) :=
  ⟨⟨by decide, by decide⟩,
    c4_page_expansion "ABC" "VOL1" (fun a b => some (b + 1 - a)) 3 5 1003
      (by decide) (by decide)
      (fun cs _ => by
        show some (min (cs + 5) 3 + 1 - (cs + 1)) = some (min (cs + 5) 3 - cs)
        congr 1
        omega)⟩

/-- Counterexample to C6 as stated: two pages, chunk size one, so two chunks;
rasterization fails only on the first chunk (the call for pages 1–1) and
would succeed for the second (the call for pages 2–2 returns one image), yet
the run produces no opt entries at all — the second chunk's page entry
`mkPageEntry "ABC" "VOL1" 1003 2 1` is not produced, because the exception
handler sits outside the chunk loop. -/
theorem c6_counterexample :
    processPdfPages "ABC" (get_bates "ABC" 1003) "VOL1"
        (fun a _ => if a = 1 then none else some 1) 2 1 = [] ∧
    (fun a _ => if a = 1 then (none : Option Nat) else some 1) 2 2 = some 1 ∧
    mkPageEntry "ABC" "VOL1" 1003 2 1 ∉
      processPdfPages "ABC" (get_bates "ABC" 1003) "VOL1"
        (fun a _ => if a = 1 then none else some 1) 2 1 := by
  have h : processPdfPages "ABC" (get_bates "ABC" 1003) "VOL1"
      (fun a _ => if a = 1 then none else some 1) 2 1 = [] := by
    unfold processPdfPages
    exact processChunksFrom_fail_now "ABC" _ "VOL1" _ 2 1 0 (by omega) (by omega) rfl
  refine ⟨h, rfl, ?_⟩
  rw [h]
  simp

/-- C6 amended: a rasterization failure on one chunk ends page processing of
that file — pages of the chunks before the failing one keep their entries,
while the failing chunk and every later chunk produce none (the single
`except` wrapping the whole chunk loop catches the exception after the
loop). -/
theorem c6_chunk_failure_aborts_rest ( pfx volume : String)
    (render : Nat → Nat → Option Nat) (total chunk v j : Nat)
    (hnd : ∃ c ∈ pfx.data, c.isDigit = false)
    (hchunk : 0 < chunk) (hj : j * chunk < total)
    (hfail : render (j * chunk + 1) (min (j * chunk + chunk) total) = none)
    (hok : ∀ cs, cs < j * chunk →
      render (cs + 1) (min (cs + chunk) total) = some (min (cs + chunk) total - cs)) :
    processPdfPages pfx (get_bates pfx v 8) volume render total chunk =
      (List.range (j * chunk)).map (fun p => mkPageEntry pfx volume v total p) := by
  have hparse := parse_base_bates pfx v hnd
  unfold processPdfPages
  rw [processChunksFrom_failure pfx _ volume render total chunk v (j * chunk)
    hparse hchunk hj hfail hok (j * chunk) 0 (by omega) (by omega)
    ⟨j, by rw [Nat.mul_comm]; omega⟩]
  rw [List.range_eq_range']
  simp

/-- Witness for the amended C6: three pages in chunks of one; the second
chunk (pages 2–2) fails, the first succeeded, so exactly page 0's entry is
kept and pages 1 and 2 are dropped. -/
theorem c6_chunk_failure_aborts_rest_witness :
    ((∃ c ∈ "ABC".data, c.isDigit = false) ∧ 0 < 1 ∧ 1 * 1 < 3) ∧
    processPdfPages "ABC" (get_bates "ABC" 1003) "VOL1"
        (fun a _ => if a = 2 then none else some 1) 3 1 =
      (List.range (1 * 1)).map (fun p => mkPageEntry "ABC" "VOL1" 1003 3 p) :=
  ⟨⟨by decide, by decide, by decide⟩,
    c6_chunk_failure_aborts_rest "ABC" "VOL1"
      (fun a _ => if a = 2 then none else some 1) 3 1 1003 1
      (by decide) (by decide) (by decide) rfl
      (fun cs h => by
        interval_cases cs
        rfl)⟩

/-! ### Loadfile serialization (`write_loadfile`) and the format check

`write_loadfile` derives one delimiter char and one wrapper char from the
configuration (`chr(int(cfg, 16))`, defaults `0x14` / `0xFE`), writes the
header `delim.join(wrap + c + wrap for c in cols)` and then one such joined
line per accumulated doc, serializing a missing or `None` value as the
empty string inside its wrappers. Lines are modelled at the character-list
level, without the trailing newline except where noted.
-/

/-- The complete column list of `write_loadfile` (the `cols` local). -/
def loadfileCols : List String :=
  ["BegBates", "EndBates", "HashValue", "FileExtension", "Filename",
   "NativeLocation", "TextLocation", "BegAttach", "EndAttach", "Custodian",
   "Duplicate Custodian", "Original FilePath", "Subject", "Title", "Author",
   "From", "To", "CC", "BCC", "DateSent", "TimeSent", "DateReceived",
   "TimeReceived", "DateCreated", "TimeCreated", "DateLastModified",
   "Message-ID", "Thread-Index", "Foreign Language", "Page Count",
   "charsperpage", "charcount", "Confidentiality", "Privilege",
   "RedactionType", "DocType", "FamilyID", "ParentID", "Production Volume"]

/-- Python `sep.join(parts)` for a single-character separator. -/
def joinWith (d : Char) : List (List Char) → List Char
  | [] => []
  | [p] => p
  | p :: q :: rest => p ++ d :: joinWith d (q :: rest)

/-- Python `line.split(sep)` for a single-character separator
(the re-splitting step of the round-trip property). -/
def splitOnChar (d : Char) : List Char → List (List Char)
  | [] => [[]]
  | c :: cs =>
    match splitOnChar d cs with
    | [] => [[]]
    | g :: gs => if c = d then [] :: g :: gs else (c :: g) :: gs

/-- The serialized form of one field value:
`str(doc.get(c, '')) if doc.get(c, '') is not None else ''`. -/
def fieldStr : Option String → String
  | none => ""
  | some s => s

/-- One wrapped field `wrap + value + wrap`. -/
def wrapField (wrap : Char) (s : String) : List Char :=
  wrap :: s.data ++ [wrap]

/-- The header line of the loadfile (without trailing newline). -/
def headerChars (delim wrap : Char) : List Char :=
  joinWith delim (loadfileCols.map (fun c => wrapField wrap c))

/-- One data line of the loadfile for a doc entry, read as the function
taking a column name to the value of `doc.get(c, '')` (`none` for a stored
Python `None`). -/
def rowChars (delim wrap : Char) (vals : String → Option String) : List Char :=
  joinWith delim (loadfileCols.map (fun c => wrapField wrap (fieldStr (vals c))))

/-- The lines `write_loadfile` writes: the header, then one line per doc. -/
def write_loadfile_lines (delim wrap : Char)
    (docs : List (String → Option String)) : List (List Char) :=
  headerChars delim wrap :: docs.map (rowChars delim wrap)

/-- Test 4 of `run_data_integrity_tests`: read the loadfile's first line and
report pass iff `'\x14' in header and '\xfe' in header` — the byte values
are written literally in the source, independent of the configuration.
(The surrounding `try/except` only turns I/O errors into a FAIL report, so
the check never raises.) -/
def run_data_integrity_loadfile_check (header : List Char) : Bool :=
  header.contains (Char.ofNat 20) && header.contains (Char.ofNat 254)

theorem splitOnChar_ne_nil (d : Char) (s : List Char) : splitOnChar d s ≠ [] := by
  cases s with
  | nil => simp [splitOnChar]
  | cons c cs =>
    rw [splitOnChar]
    match h : splitOnChar d cs with
    | [] => simp
    | g :: gs =>
      by_cases hc : c = d <;> simp [hc]

theorem splitOnChar_no_sep (d : Char) (p : List Char) (hp : d ∉ p) :
    splitOnChar d p = [p] := by
  induction p with
  | nil => rfl
  | cons c cs ih =>
    have hcd : c ≠ d := fun h => hp (h ▸ List.mem_cons_self c cs)
    have hcs : d ∉ cs := fun h => hp (List.mem_cons_of_mem c h)
    rw [splitOnChar, ih hcs]
    simp [hcd]

theorem splitOnChar_append_sep (d : Char) (p t : List Char) (hp : d ∉ p) :
    splitOnChar d (p ++ d :: t) = p :: splitOnChar d t := by
  induction p with
  | nil =>
    simp only [List.nil_append]
    rw [splitOnChar]
    match h : splitOnChar d t with
    | [] => exact absurd h (splitOnChar_ne_nil d t)
    | g :: gs => simp
  | cons c cs ih =>
    have hcd : c ≠ d := fun h => hp (h ▸ List.mem_cons_self c cs)
    have hcs : d ∉ cs := fun h => hp (List.mem_cons_of_mem c h)
    simp only [List.cons_append]
    rw [splitOnChar, ih hcs]
    simp [hcd]

theorem splitOnChar_joinWith (d : Char) (parts : List (List Char))
    (hne : parts ≠ []) (hd : ∀ p ∈ parts, d ∉ p) :
    splitOnChar d (joinWith d parts) = parts := by
  induction parts with
  | nil => exact absurd rfl hne
  | cons p ps ih =>
    match ps with
    | [] =>
      rw [joinWith]
      exact splitOnChar_no_sep d p (hd p (List.mem_cons_self p []))
    | q :: rest =>
      rw [joinWith, splitOnChar_append_sep d p _ (hd p (List.mem_cons_self p _))]
      rw [ih (by simp) (fun r hr => hd r (List.mem_cons_of_mem p hr))]

theorem mem_joinWith (d x : Char) (parts : List (List Char)) :
    x ∈ joinWith d parts ↔ (∃ p ∈ parts, x ∈ p) ∨ (x = d ∧ 2 ≤ parts.length) := by
  induction parts with
  | nil => simp [joinWith]
  | cons p ps ih =>
    match ps with
    | [] => simp [joinWith]
    | q :: rest =>
      have hlen : 2 ≤ (p :: q :: rest).length := by
        simp only [List.length_cons]
        omega
      rw [joinWith]
      constructor
      · intro hx
        rcases List.mem_append.mp hx with hx | hx
        · exact Or.inl ⟨p, List.mem_cons_self _ _, hx⟩
        · rcases List.mem_cons.mp hx with hx | hx
          · exact Or.inr ⟨hx, hlen⟩
          · rcases ih.mp hx with ⟨r, hr, hxr⟩ | ⟨hxd, _⟩
            · exact Or.inl ⟨r, List.mem_cons_of_mem p hr, hxr⟩
            · exact Or.inr ⟨hxd, hlen⟩
      · intro hx
        rcases hx with ⟨r, hr, hxr⟩ | ⟨hxd, _⟩
        · rcases List.mem_cons.mp hr with h | h
          · exact List.mem_append.mpr (Or.inl (h ▸ hxr))
          · exact List.mem_append.mpr (Or.inr (List.mem_cons.mpr
              (Or.inr (ih.mpr (Or.inl ⟨r, h, hxr⟩)))))
        · exact List.mem_append.mpr (Or.inr (List.mem_cons.mpr (Or.inl hxd)))

theorem not_mem_wrapField {delim wrap : Char} {s : String}
    (h1 : delim ≠ wrap) (h2 : delim ∉ s.data) : delim ∉ wrapField wrap s := by
  intro h
  rcases List.mem_cons.mp h with h | h
  · exact h1 h
  · rcases List.mem_append.mp h with h | h
    · exact h2 h
    · exact h1 (List.mem_singleton.mp h)

/-- Counterexample to C3 as stated: the column list of `write_loadfile` has
39 entries, not 40 — re-splitting the header line written with the default
delimiter (0x14) and wrapper (0xFE) on the delimiter yields 39 fields. -/
theorem c3_counterexample :
    loadfileCols.length = 39 ∧
    (splitOnChar (Char.ofNat 20) (headerChars (Char.ofNat 20) (Char.ofNat 254))).length = 39 ∧
    ¬ (splitOnChar (Char.ofNat 20) (headerChars (Char.ofNat 20) (Char.ofNat 254))).length = 40 := by
  refine ⟨by decide, by decide, by decide⟩

/-- C3 amended: `write_loadfile` emits exactly one header line followed by
one line per record, each line containing exactly **39** fields (not 40) in
the same fixed order, every field (including the header names) enclosed in
the configured wrapper character and joined by the configured delimiter
character, with a missing or `None` value serialized as an empty wrapped
field, so that re-splitting any emitted line on the delimiter yields the
same column count (39) and field order for every record — provided, as the
round-trip property presupposes, that no serialized value contains the
delimiter and the delimiter differs from the wrapper. -/
theorem c3_loadfile_serialization (delim wrap : Char)
    (docs : List (String → Option String))
    (hcols : ∀ c ∈ loadfileCols, delim ∉ c.data)
    (hwrap : delim ≠ wrap)
    (hvals : ∀ doc ∈ docs, ∀ c ∈ loadfileCols, delim ∉ (fieldStr (doc c)).data) :
    write_loadfile_lines delim wrap docs =
      headerChars delim wrap :: docs.map (rowChars delim wrap) ∧
    (write_loadfile_lines delim wrap docs).length = docs.length + 1 ∧
    loadfileCols.length = 39 ∧
    splitOnChar delim (headerChars delim wrap) =
      loadfileCols.map (fun c => wrapField wrap c) ∧
    (∀ doc ∈ docs, splitOnChar delim (rowChars delim wrap doc) =
      loadfileCols.map (fun c => wrapField wrap (fieldStr (doc c)))) ∧
    (∀ line ∈ write_loadfile_lines delim wrap docs,
      (splitOnChar delim line).length = 39) ∧
    wrapField wrap (fieldStr none) = [wrap, wrap] := by
  have hsplitHeader : splitOnChar delim (headerChars delim wrap) =
      loadfileCols.map (fun c => wrapField wrap c) := by
    apply splitOnChar_joinWith
    · simp [loadfileCols]
    · intro p hp
      rcases List.mem_map.mp hp with ⟨col, hcol, rfl⟩
      exact not_mem_wrapField hwrap (hcols col hcol)
  have hsplitRow : ∀ doc ∈ docs, splitOnChar delim (rowChars delim wrap doc) =
      loadfileCols.map (fun c => wrapField wrap (fieldStr (doc c))) := by
    intro doc hdoc
    apply splitOnChar_joinWith
    · simp [loadfileCols]
    · intro p hp
      rcases List.mem_map.mp hp with ⟨col, hcol, rfl⟩
      exact not_mem_wrapField hwrap (hvals doc hdoc col hcol)
  refine ⟨rfl, by simp [write_loadfile_lines], by decide, hsplitHeader, hsplitRow, ?_, rfl⟩
  intro line hline
  rcases List.mem_cons.mp hline with h | h
  · subst h
    rw [hsplitHeader, List.length_map]
    decide
  · rcases List.mem_map.mp h with ⟨doc, hdoc, rfl⟩
    rw [hsplitRow doc hdoc, List.length_map]
    decide

/-- Witness for the amended C3 at the default delimiter/wrapper and one
concrete doc entry whose only populated column is BegBates. -/
theorem c3_loadfile_serialization_witness :
    ((∀ c ∈ loadfileCols, Char.ofNat 20 ∉ c.data) ∧
     Char.ofNat 20 ≠ Char.ofNat 254) ∧
    (write_loadfile_lines (Char.ofNat 20) (Char.ofNat 254)
        [fun c => if c = "BegBates" then some "PL00000001" else none] =
      headerChars (Char.ofNat 20) (Char.ofNat 254) ::
        [fun c => if c = "BegBates" then some "PL00000001" else none].map
          (rowChars (Char.ofNat 20) (Char.ofNat 254)) ∧
    (write_loadfile_lines (Char.ofNat 20) (Char.ofNat 254)
        [fun c => if c = "BegBates" then some "PL00000001" else none]).length =
      ([fun c => if c = "BegBates" then some "PL00000001" else none] :
        List (String → Option String)).length + 1 ∧
    loadfileCols.length = 39 ∧
    splitOnChar (Char.ofNat 20) (headerChars (Char.ofNat 20) (Char.ofNat 254)) =
      loadfileCols.map (fun c => wrapField (Char.ofNat 254) c) ∧
    (∀ doc ∈ ([fun c => if c = "BegBates" then some "PL00000001" else none] :
        List (String → Option String)),
      splitOnChar (Char.ofNat 20) (rowChars (Char.ofNat 20) (Char.ofNat 254) doc) =
        loadfileCols.map (fun c => wrapField (Char.ofNat 254) (fieldStr (doc c)))) ∧
    (∀ line ∈ write_loadfile_lines (Char.ofNat 20) (Char.ofNat 254)
        [fun c => if c = "BegBates" then some "PL00000001" else none],
      (splitOnChar (Char.ofNat 20) line).length = 39) ∧
    wrapField (Char.ofNat 254) (fieldStr none) = [Char.ofNat 254, Char.ofNat 254]) :=
  ⟨⟨by decide, by decide⟩,
    c3_loadfile_serialization (Char.ofNat 20) (Char.ofNat 254)
      [fun c => if c = "BegBates" then some "PL00000001" else none]
      (by decide) (by decide)
      (by
        intro doc hdoc c hc
        rcases List.mem_singleton.mp hdoc with rfl
        by_cases hb : c = "BegBates"
        · subst hb
          simp only [if_pos rfl, fieldStr]
          decide
        · simp only [if_neg hb, fieldStr]
          exact List.not_mem_nil _)⟩

/-- Counterexample to C9 as stated: with a configured delimiter `,` (0x2C)
and wrapper `"` (0x22), the header line `write_loadfile` produces contains
both configured characters, yet the loadfile-format check reports FAIL,
because `run_data_integrity_tests` tests for the literal bytes 0x14 and
0xFE rather than the configured ones. -/
theorem c9_counterexample :
    run_data_integrity_loadfile_check
        (headerChars (Char.ofNat 44) (Char.ofNat 34) ++ [Char.ofNat 10]) = false ∧
    Char.ofNat 44 ∈ headerChars (Char.ofNat 44) (Char.ofNat 34) ∧
    Char.ofNat 34 ∈ headerChars (Char.ofNat 44) (Char.ofNat 34) := by
  refine ⟨by decide, by decide, by decide⟩

theorem mem_headerChars_iff (delim wrap c : Char)
    (hc : ∀ col ∈ loadfileCols, c ∉ col.data) :
    c ∈ headerChars delim wrap ↔ c = wrap ∨ c = delim := by
  unfold headerChars
  rw [mem_joinWith]
  constructor
  · rintro (⟨p, hp, hcp⟩ | ⟨hcd, _⟩)
    · rcases List.mem_map.mp hp with ⟨col, hcol, rfl⟩
      rcases List.mem_cons.mp hcp with h | h
      · exact Or.inl h
      · rcases List.mem_append.mp h with h | h
        · exact absurd h (hc col hcol)
        · exact Or.inl (List.mem_singleton.mp h)
    · exact Or.inr hcd
  · rintro (h | h)
    · subst h
      refine Or.inl ⟨wrapField c "BegBates", ?_, List.mem_cons_self _ _⟩
      exact List.mem_map.mpr ⟨"BegBates", by simp [loadfileCols], rfl⟩
    · subst h
      refine Or.inr ⟨rfl, ?_⟩
      rw [List.length_map]
      decide

/-- C9 amended: the loadfile-format check of `run_data_integrity_tests`
tests the header for the fixed byte values 0x14 and 0xFE, not the
configured delimiter/wrapper: on the header line written with configured
characters `delim`/`wrap` it passes exactly when one of them is 0x14 and
one of them is 0xFE. It therefore passes under the default configuration
(0x14/0xFE) and fails under any other configured bytes even though the
header contains the configured characters. (The check is a total function
of the header — it reports pass/fail and never raises.) -/
theorem c9_format_check_fixed_bytes (delim wrap : Char) :
    run_data_integrity_loadfile_check (headerChars delim wrap ++ [Char.ofNat 10]) = true ↔
      ((delim = Char.ofNat 20 ∨ wrap = Char.ofNat 20) ∧
       (delim = Char.ofNat 254 ∨ wrap = Char.ofNat 254)) := by
  have h20 : ∀ col ∈ loadfileCols, Char.ofNat 20 ∉ col.data := by decide
  have h254 : ∀ col ∈ loadfileCols, Char.ofNat 254 ∉ col.data := by decide
  have hmem : ∀ x : Char, x ≠ Char.ofNat 10 →
      (∀ col ∈ loadfileCols, x ∉ col.data) →
      ((headerChars delim wrap ++ [Char.ofNat 10]).contains x = true ↔
        (delim = x ∨ wrap = x)) := by
    intro x hxn hx
    show List.elem x _ = true ↔ _
    rw [List.elem_iff, List.mem_append]
    constructor
    · rintro (h | h)
      · rcases (mem_headerChars_iff delim wrap x hx).mp h with h | h
        · exact Or.inr h.symm
        · exact Or.inl h.symm
      · exact absurd (List.mem_singleton.mp h) hxn
    · rintro (h | h)
      · exact Or.inl ((mem_headerChars_iff delim wrap x hx).mpr (Or.inr h.symm))
      · exact Or.inl ((mem_headerChars_iff delim wrap x hx).mpr (Or.inl h.symm))
  unfold run_data_integrity_loadfile_check
  rw [Bool.and_eq_true,
    hmem (Char.ofNat 20) (by decide) h20,
    hmem (Char.ofNat 254) (by decide) h254]

/-! ### `hashlib.md5(fname.encode()).hexdigest()`

`process_single_file` stores `'HashValue': hashlib.md5(fname.encode()).hexdigest()`
— the digest of the UTF-8 encoding of the file *path string*. The MD5
implementation below follows RFC 1321 over naturals reduced mod `2^32` and
agrees with `hashlib` (see `md5Hex_abc`). -/

/-- UTF-8 encoding of a string, as Python `str.encode()` produces it. -/
def utf8Bytes (s : String) : List Nat :=
  s.data.flatMap (fun c =>
    let n := c.toNat
    if n < 128 then [n]
    else if n < 2048 then [192 + n / 64, 128 + n % 64]
    else if n < 65536 then [224 + n / 4096, 128 + (n / 64) % 64, 128 + n % 64]
    else [240 + n / 262144, 128 + (n / 4096) % 64, 128 + (n / 64) % 64, 128 + n % 64])

/-- The 64 MD5 round constants (floor(abs(sin(i+1)) * 2^32)). -/
def md5K : List Nat :=
  [3614090360, 3905402710, 606105819, 3250441966,
   4118548399, 1200080426, 2821735955, 4249261313,
   1770035416, 2336552879, 4294925233, 2304563134,
   1804603682, 4254626195, 2792965006, 1236535329,
   4129170786, 3225465664, 643717713, 3921069994,
   3593408605, 38016083, 3634488961, 3889429448,
   568446438, 3275163606, 4107603335, 1163531501,
   2850285829, 4243563512, 1735328473, 2368359562,
   4294588738, 2272392833, 1839030562, 4259657740,
   2763975236, 1272893353, 4139469664, 3200236656,
   681279174, 3936430074, 3572445317, 76029189,
   3654602809, 3873151461, 530742520, 3299628645,
   4096336452, 1126891415, 2878612391, 4237533241,
   1700485571, 2399980690, 4293915773, 2240044497,
   1873313359, 4264355552, 2734768916, 1309151649,
   4149444226, 3174756917, 718787259, 3951481745]

/-- The 64 MD5 per-round left-rotation amounts. -/
def md5S : List Nat :=
  [7, 12, 17, 22, 7, 12, 17, 22, 7, 12, 17, 22, 7, 12, 17, 22,
   5, 9, 14, 20, 5, 9, 14, 20, 5, 9, 14, 20, 5, 9, 14, 20,
   4, 11, 16, 23, 4, 11, 16, 23, 4, 11, 16, 23, 4, 11, 16, 23,
   6, 10, 15, 21, 6, 10, 15, 21, 6, 10, 15, 21, 6, 10, 15, 21]

/-- 2^32, the word modulus. -/
def w32 : Nat := 4294967296

/-- Bitwise complement within 32 bits. -/
def bnot32 (x : Nat) : Nat := 4294967295 - x

/-- 32-bit left rotation by `s` (meaningful for `s ≤ 32`, values < 2^32). -/
def rotl32 (x s : Nat) : Nat :=
  (x % 2 ^ (32 - s)) * 2 ^ s + x / 2 ^ (32 - s)

/-- MD5 padding: `0x80`, zeros to 56 mod 64, then the 8-byte little-endian
bit length. -/
def md5Pad (msg : List Nat) : List Nat :=
  let L := msg.length
  let k := (120 - (L + 1) % 64) % 64
  let bits := (L * 8) % (2 ^ 64)
  msg ++ 128 :: List.replicate k 0 ++
    (List.range 8).map (fun i => bits / 256 ^ i % 256)

/-- A 64-byte chunk as 16 little-endian 32-bit words. -/
def md5Words (chunk : List Nat) : List Nat :=
  (List.range 16).map (fun j =>
    chunk.getD (4 * j) 0 + 256 * chunk.getD (4 * j + 1) 0 +
      65536 * chunk.getD (4 * j + 2) 0 + 16777216 * chunk.getD (4 * j + 3) 0)

/-- One of the 64 MD5 operations. -/
def md5Round (M : List Nat) (st : Nat × Nat × Nat × Nat) (i : Nat) :
    Nat × Nat × Nat × Nat :=
  let (A, B, C, D) := st
  let F :=
    if i < 16 then (B.land C).lor ((bnot32 B).land D)
    else if i < 32 then (D.land B).lor ((bnot32 D).land C)
    else if i < 48 then (B.xor C).xor D
    else C.xor (B.lor (bnot32 D))
  let g :=
    if i < 16 then i
    else if i < 32 then (5 * i + 1) % 16
    else if i < 48 then (3 * i + 5) % 16
    else (7 * i) % 16
  let F2 := (F + A + md5K.getD i 0 + M.getD g 0) % w32
  (D, (B + rotl32 F2 (md5S.getD i 0)) % w32, B, C)

/-- Process one 64-byte chunk. -/
def md5Chunk (st : Nat × Nat × Nat × Nat) (chunk : List Nat) :
    Nat × Nat × Nat × Nat :=
  let M := md5Words chunk
  let (A, B, C, D) := (List.range 64).foldl (md5Round M) st
  let (a, b, c, d) := st
  ((a + A) % w32, (b + B) % w32, (c + C) % w32, (d + D) % w32)

/-- Split into 64-byte chunks (structural fuel; `fuel = length` suffices). -/
def chunksAux : Nat → List Nat → List (List Nat)
  | 0, _ => []
  | _, [] => []
  | fuel + 1, b :: rest => ((b :: rest).take 64) :: chunksAux fuel ((b :: rest).drop 64)

/-- Lowercase hexadecimal digit character. -/
def hexChar (d : Nat) : Char :=
  if d < 10 then Char.ofNat (48 + d) else Char.ofNat (87 + d)

/-- One 32-bit word as 8 lowercase hex chars, little-endian byte order. -/
def wordLEHex (x : Nat) : List Char :=
  (List.range 4).flatMap (fun i =>
    let b := x / 256 ^ i % 256
    [hexChar (b / 16), hexChar (b % 16)])

/-- `hashlib.md5(s.encode()).hexdigest()`. -/
def md5Hex (s : String) : String :=
  let msg := utf8Bytes s
  let padded := md5Pad msg
  let (a, b, c, d) := (chunksAux padded.length padded).foldl md5Chunk
    (1732584193, 4023233417, 2562383102, 271733878)
  String.mk (wordLEHex a ++ wordLEHex b ++ wordLEHex c ++ wordLEHex d)

/-- Sanity check against the RFC 1321 test vector for "abc". -/
theorem md5Hex_abc : md5Hex "abc" = "900150983cd24fb0d6963f7d28e17f72" := by
  decide

/-! ### Metadata values and the per-format key mapping -/

/-- A Tika metadata value: a single string or a list of strings. -/
inductive MetaVal where
  | str : String → MetaVal
  | list : List String → MetaVal
deriving DecidableEq, Repr

/-- A parsed metadata mapping (`parsed['metadata']`), keys pairwise distinct. -/
abbrev Metadata := List (String × MetaVal)

/-- `metadata.get(k, None)`. -/
def metaGet (md : Metadata) (k : String) : Option MetaVal := md.lookup k

/-- `metadata.get(k, default)`. -/
def metaGetD (md : Metadata) (k : String) (d : MetaVal) : MetaVal :=
  (md.lookup k).getD d

/-- Python `str(v)` on a metadata value (list rendering as Python repr,
ignoring quote escaping, which the inputs in question do not need). -/
def pyStr : MetaVal → String
  | .str s => s
  | .list xs =>
    "[" ++ String.intercalate ", " (xs.map (fun x => "\x27" ++ x ++ "\x27")) ++ "]"

/-- `get_enhanced_metadata_mapping()`: the per-field, per-format raw-key
table, verbatim from the source. -/
def metadata_kws_table : List (String × List (String × String)) :=
  [("title", [("pdf", "title"), ("docx", "title"), ("pptx", "title"),
    ("msg", "Subject"), ("eml", "Subject")]),
   ("DateCreated", [("pdf", "Creation-Date"), ("docx", "Creation-Date"),
    ("pptx", "Creation-Date"), ("msg", "Date"), ("eml", "Date")]),
   ("TimeCreated", [("pdf", "Creation-Date"), ("docx", "Creation-Date"),
    ("pptx", "Creation-Date"), ("msg", "Date"), ("eml", "Date")]),
   ("DateLastModified", [("pdf", "Last-Modified"), ("docx", "Last-Modified"),
    ("pptx", "Last-Modified"), ("msg", "Date"), ("eml", "Date")]),
   ("TimeLastModified", [("pdf", "Last-Modified"), ("docx", "Last-Modified"),
    ("pptx", "Last-Modified"), ("msg", "Date"), ("eml", "Date")]),
   ("last_save_date", [("pdf", "Last-Save-Date"), ("docx", "Last-Save-Date")]),
   ("Author", [("pdf", "meta:author"), ("pptx", "dc:title"), ("docx", "author"),
    ("msg", "From"), ("eml", "From")]),
   ("Subject", [("pdf", "Subject"), ("docx", "Subject"), ("pptx", "Subject"),
    ("msg", "Subject"), ("eml", "Subject")]),
   ("From", [("msg", "From"), ("eml", "From"), ("pst", "From")]),
   ("To", [("msg", "To"), ("eml", "To"), ("pst", "To")]),
   ("CC", [("msg", "CC"), ("eml", "CC"), ("pst", "CC")]),
   ("BCC", [("msg", "BCC"), ("eml", "BCC"), ("pst", "BCC")]),
   ("DateSent", [("msg", "Date"), ("eml", "Date"), ("pst", "Date")]),
   ("TimeSent", [("msg", "Date"), ("eml", "Date"), ("pst", "Date")]),
   ("DateReceived", [("msg", "Date"), ("eml", "Date"), ("pst", "Date")]),
   ("TimeReceived", [("msg", "Date"), ("eml", "Date"), ("pst", "Date")]),
   ("Message-ID", [("msg", "Message-ID"), ("eml", "Message-ID"),
    ("pst", "Message-ID")]),
   ("Thread-Index", [("msg", "Thread-Index"), ("eml", "Thread-Index"),
    ("pst", "Thread-Index")]),
   ("Foreign Language", [("default", "Foreign Language")]),
   ("Page Count", [("pdf", "xmpTPg:NPages"), ("docx", "Page Count"),
    ("pptx", "Slide Count")]),
   ("charsperpage", [("pdf", "pdf:charsPerPage")]),
   ("FileName", [("pdf", "resourceName"), ("docx", "resourceName")]),
   ("charcount", [("docx", "Character Count")]),
   ("Confidentiality", [("default", "Confidentiality")]),
   ("Privilege", [("default", "Privilege")]),
   ("RedactionType", [("default", "RedactionType")])]

/-- `metadata_kws[field].get(ext, None)`. -/
def metadata_kws (field ext : String) : Option String :=
  (metadata_kws_table.lookup field).bind (fun m => m.lookup ext)

/-- `metadata.get(metadata_kws[field].get(FileExtension, None), None)` —
when the format has no mapping for the field, Python looks up the key
`None`, which is absent, so the result is `None`. -/
def metaField (md : Metadata) (field ext : String) : Option MetaVal :=
  match metadata_kws field ext with
  | none => none
  | some k => metaGet md k

/-! ### Path helpers (`os.path.splitext`, filename classification) -/

/-- `os.path.splitext`: split off the extension at the last dot of the last
path component, not counting that component's leading dots. -/
def splitext (p : String) : String × String :=
  let revCs := p.data.reverse
  let baseRev := revCs.takeWhile (fun c => !(c = '/' || c = '\\'))
  let dirPart := (revCs.drop baseRev.length).reverse
  let base := baseRev.reverse
  let lead := base.takeWhile (fun c => c = '.')
  let rest := base.drop lead.length
  let tailRev := rest.reverse.takeWhile (fun c => c ≠ '.')
  if tailRev.length = rest.length then (p, "")
  else
    (String.mk (dirPart ++ lead ++ (rest.reverse.drop (tailRev.length + 1)).reverse),
     String.mk ('.' :: tailRev.reverse))

/-- Strip a character from both ends (Python `str.strip('.')`). -/
def stripChars (c : Char) (s : List Char) : List Char :=
  ((s.dropWhile (· = c)).reverse.dropWhile (· = c)).reverse

/-- The `FileExtension` local of `process_single_file`:
`os.path.splitext(fname)[1].lower().strip('.')`. -/
def extTag (fname : String) : String :=
  String.mk (stripChars '.' (lowerStr (splitext fname).2).data)

/-- `determine_document_type` (the metadata argument is unused by its logic). -/
def determine_document_type (fname : String) : String :=
  let e := lowerStr (splitext (lowerStr (basename fname))).2
  if e = ".msg" ∨ e = ".eml" ∨ e = ".pst" then "Email"
  else if e = ".doc" ∨ e = ".docx" then "Word Document"
  else if e = ".xls" ∨ e = ".xlsx" then "Spreadsheet"
  else if e = ".ppt" ∨ e = ".pptx" then "Presentation"
  else if e = ".pdf" then "PDF Document"
  else if e = ".jpg" ∨ e = ".jpeg" ∨ e = ".png" ∨ e = ".tif" ∨ e = ".tiff" ∨
    e = ".bmp" then "Image"
  else if e = ".txt" ∨ e = ".rtf" then "Text Document"
  else if e = ".zip" ∨ e = ".rar" ∨ e = ".7z" then "Archive"
  else "Unknown"

/-- `determine_redaction_type`. -/
def determine_redaction_type (fname : String) (md : Metadata) : String :=
  let filename := lowerStr (basename fname)
  if "redacted".data <:+: filename.data then "Redacted"
  else if "privileged".data <:+: filename.data then "Privileged"
  else if "confidential".data <:+: filename.data then "Confidential"
  else
    match metaGetD md "content" (.str "") with
    | .str content =>
      if "[REDACTED]".data <:+: content.data ∨
        "***".data <:+: content.data then "Redacted" else "None"
    | .list xs =>
      if "[REDACTED]" ∈ xs ∨ "***" ∈ xs then "Redacted" else "None"

/-! ### The date/time parser (`convert_date_safe`, `convert_time_safe`)

Both functions share the same preprocessing and `strptime` call and differ
only in the `strftime` format; that shared pipeline is factored out here.
`datetime.strptime(arg, "%Y-%m-%dT%H:%M:%SZ")` is modelled by the exact
regex semantics CPython compiles for that format (leftmost alternation for
the 1–2 digit fields — backtracking never changes the outcome here because
every character following a numeric field is a non-digit literal), followed
by the `datetime` constructor's range validation. Any failure gives `none`,
the model of the caught exception. -/

/-- A parsed `datetime` value. -/
structure PyDateTime where
  year : Nat
  month : Nat
  day : Nat
  hour : Nat
  minute : Nat
  second : Nat
deriving DecidableEq, Repr

/-- Digit value of a digit character. -/
def dv (c : Char) : Nat := c.toNat - 48

/-- Consume one literal character (strptime compiles its pattern with
IGNORECASE, so letters match either case). -/
def expectCI (c : Char) : List Char → Option (List Char)
  | x :: rest => if x.toLower = c.toLower then some rest else none
  | [] => none

/-- `%Y`: exactly four digits. -/
def parseYear4 : List Char → Option (Nat × List Char)
  | a :: b :: c :: d :: rest =>
    if a.isDigit ∧ b.isDigit ∧ c.isDigit ∧ d.isDigit then
      some (1000 * dv a + 100 * dv b + 10 * dv c + dv d, rest)
    else none
  | _ => none

/-- `%m`: regex `(1[0-2]|0[1-9]|[1-9])`. -/
def parseMonth : List Char → Option (Nat × List Char)
  | '1' :: c :: rest =>
    if '0' ≤ c ∧ c ≤ '2' then some (10 + dv c, rest) else some (1, c :: rest)
  | '0' :: c :: rest =>
    if '1' ≤ c ∧ c ≤ '9' then some (dv c, rest) else none
  | c :: rest => if '1' ≤ c ∧ c ≤ '9' then some (dv c, rest) else none
  | [] => none

/-- `%d`: regex `(3[01]|[12]\d|0[1-9]|[1-9])`. -/
def parseDay : List Char → Option (Nat × List Char)
  | '3' :: c :: rest =>
    if c = '0' ∨ c = '1' then some (30 + dv c, rest) else some (3, c :: rest)
  | c :: d :: rest =>
    if (c = '1' ∨ c = '2') ∧ d.isDigit then some (10 * dv c + dv d, rest)
    else if c = '0' then
      (if '1' ≤ d ∧ d ≤ '9' then some (dv d, rest) else none)
    else if '1' ≤ c ∧ c ≤ '9' then some (dv c, d :: rest)
    else none
  | [c] => if '1' ≤ c ∧ c ≤ '9' then some (dv c, []) else none
  | [] => none

/-- `%H`: regex `(2[0-3]|[0-1]\d|\d)`. -/
def parseHour : List Char → Option (Nat × List Char)
  | '2' :: c :: rest =>
    if '0' ≤ c ∧ c ≤ '3' then some (20 + dv c, rest) else some (2, c :: rest)
  | c :: d :: rest =>
    if ('0' ≤ c ∧ c ≤ '1') ∧ d.isDigit then some (10 * dv c + dv d, rest)
    else if c.isDigit then some (dv c, d :: rest)
    else none
  | [c] => if c.isDigit then some (dv c, []) else none
  | [] => none

/-- `%M` and `%S`: regex `([0-5]\d|\d)`. -/
def parseMinSec : List Char → Option (Nat × List Char)
  | c :: d :: rest =>
    if ('0' ≤ c ∧ c ≤ '5') ∧ d.isDigit then some (10 * dv c + dv d, rest)
    else if c.isDigit then some (dv c, d :: rest)
    else none
  | [c] => if c.isDigit then some (dv c, []) else none
  | [] => none

/-- Gregorian leap year, as `datetime` uses. -/
def isLeap (y : Nat) : Bool := decide ((y % 4 = 0 ∧ y % 100 ≠ 0) ∨ y % 400 = 0)

/-- Days in a month. -/
def daysInMonth (y m : Nat) : Nat :=
  if m = 2 then (if isLeap y then 29 else 28)
  else if m = 4 ∨ m = 6 ∨ m = 9 ∨ m = 11 then 30
  else 31

/-- The `datetime(...)` constructor's range validation. -/
def mkValidDT (y mo d hh mi ss : Nat) : Option PyDateTime :=
  if 1 ≤ y ∧ y ≤ 9999 ∧ 1 ≤ mo ∧ mo ≤ 12 ∧ 1 ≤ d ∧ d ≤ daysInMonth y mo ∧
    hh ≤ 23 ∧ mi ≤ 59 ∧ ss ≤ 59
  then some (PyDateTime.mk y mo d hh mi ss) else none

/-- `datetime.strptime(s, "%Y-%m-%dT%H:%M:%SZ")`; `none` is a raised
`ValueError` (also covering leftover unconverted data). -/
def strptime_iso (s : List Char) : Option PyDateTime :=
  match parseYear4 s with
  | none => none
  | some (y, s1) =>
  match expectCI '-' s1 with
  | none => none
  | some s2 =>
  match parseMonth s2 with
  | none => none
  | some (mo, s3) =>
  match expectCI '-' s3 with
  | none => none
  | some s4 =>
  match parseDay s4 with
  | none => none
  | some (d, s5) =>
  match expectCI 'T' s5 with
  | none => none
  | some s6 =>
  match parseHour s6 with
  | none => none
  | some (hh, s7) =>
  match expectCI ':' s7 with
  | none => none
  | some s8 =>
  match parseMinSec s8 with
  | none => none
  | some (mi, s9) =>
  match expectCI ':' s9 with
  | none => none
  | some s10 =>
  match parseMinSec s10 with
  | none => none
  | some (ss, s11) =>
  match expectCI 'Z' s11 with
  | none => none
  | some s12 =>
  if s12 = [] then mkValidDT y mo d hh mi ss else none

/-- Two-digit zero-padded decimal. -/
def pad2 (n : Nat) : List Char := padLeft 2 (toDec n)

/-- Four-digit zero-padded decimal. -/
def pad4 (n : Nat) : List Char := padLeft 4 (toDec n)

/-- `parsed_date.strftime('%m/%d/%Y')`. -/
def strftime_date (dt : PyDateTime) : String :=
  String.mk (pad2 dt.month ++ '/' :: pad2 dt.day ++ '/' :: pad4 dt.year)

/-- `parsed_date.strftime('%H:%M:%S')`. -/
def strftime_time (dt : PyDateTime) : String :=
  String.mk (pad2 dt.hour ++ ':' :: pad2 dt.minute ++ ':' :: pad2 dt.second)

/-- The fractional-suffix removal:
`bad = orig_date[orig_date.find('.'):-1]; orig_date = orig_date.replace(bad, '')`. -/
def stripFractional (s : List Char) : List Char :=
  if s.contains '.' then
    let i := (s.takeWhile (fun c => c ≠ '.')).length
    replaceAll ((s.drop i).dropLast) s
  else s

/-- Shared preprocessing of both converters, from the single string the
falsiness/list handling produced up to the argument handed to `strptime`:
fractional-suffix removal, `Z` appended when the (possibly now empty —
`orig_date[-1]` raising `IndexError`, hence `none`) string does not end in
`Z`, then `.replace('0000000','')`. -/
def preprocessCore (s0 : List Char) : Option (List Char) :=
  let s1 := stripFractional s0
  match s1.getLast? with
  | none => none
  | some c =>
    some (replaceAll ("0000000".data) (if c ≠ 'Z' then s1 ++ ['Z'] else s1))

/-- The falsiness check and list handling shared by both converters:
`None`, `''` and `[]` are falsy and give `None` up front; a non-empty list
contributes its first element. -/
def convert_input (v : Option MetaVal) : Option (List Char) :=
  match v with
  | none => none
  | some (.str s) => if s.data = [] then none else preprocessCore s.data
  | some (.list []) => none
  | some (.list (x :: _)) => preprocessCore x.data

/-- `convert_date_safe`: Casedoxx date `MM/DD/YYYY`, `None` on any failure. -/
def convert_date_safe (v : Option MetaVal) : Option String :=
  match convert_input v with
  | none => none
  | some arg =>
    match strptime_iso arg with
    | none => none
    | some dt => some (strftime_date dt)

/-- `convert_time_safe`: Casedoxx time `HH:MM:SS`, `None` on any failure. -/
def convert_time_safe (v : Option MetaVal) : Option String :=
  match convert_input v with
  | none => none
  | some arg =>
    match strptime_iso arg with
    | none => none
    | some dt => some (strftime_time dt)

/-- The date-format regex of integrity Test 6, `^\d{1,2}/\d{1,2}/\d{4}$`
(`/` is not a digit, so the greedy spans below are exactly the regex's
match behavior). -/
def matchesDatePatternL (l : List Char) : Bool :=
  match l.dropWhile Char.isDigit with
  | '/' :: r2 =>
    match r2.dropWhile Char.isDigit with
    | '/' :: r4 =>
      decide (1 ≤ (l.takeWhile Char.isDigit).length ∧
        (l.takeWhile Char.isDigit).length ≤ 2 ∧
        1 ≤ (r2.takeWhile Char.isDigit).length ∧
        (r2.takeWhile Char.isDigit).length ≤ 2 ∧
        (r4.takeWhile Char.isDigit).length = 4 ∧
        r4.dropWhile Char.isDigit = [])
    | _ => false
  | _ => false

def matchesDatePattern (s : String) : Bool := matchesDatePatternL s.data

/-- The canonical `HH:MM:SS` shape: exactly two digits, `:`, two digits,
`:`, two digits. -/
def matchesTimePatternL (l : List Char) : Bool :=
  match l.dropWhile Char.isDigit with
  | ':' :: r2 =>
    match r2.dropWhile Char.isDigit with
    | ':' :: r4 =>
      decide ((l.takeWhile Char.isDigit).length = 2 ∧
        (r2.takeWhile Char.isDigit).length = 2 ∧
        (r4.takeWhile Char.isDigit).length = 2 ∧
        r4.dropWhile Char.isDigit = [])
    | _ => false
  | _ => false

def matchesTimePattern (s : String) : Bool := matchesTimePatternL s.data

/-! ### Record construction (`process_single_file`)

`buildDoc` is the `doc_entry` dict literal built after a successful parse;
`process_single_file` returns `none` when the extraction collaborator
raises (the task reports `failed` and appends nothing). The value
`identify_document_family` would return for this file is passed in as
`identifyFamily` — it abstracts the run's shared family map, which no claim
under test depends on. -/

/-- The extraction collaborator's result (`parsed`): a metadata mapping and
the extracted text (`None` possible). -/
structure ParseResult where
  metadata : Metadata
  content : Option String
deriving DecidableEq, Repr

/-- One per-file `doc_entry` dict, with the key names Lean cannot carry
spelled close to the original (`DuplicateCustodian` for
`'Duplicate Custodian'`, etc.; `docToVals` restores the exact keys). -/
structure DocEntry where
  BegBates : String
  EndBates : String
  HashValue : String
  FileExtension : String
  Filename : String
  NativeLocation : String
  TextLocation : String
  BegAttach : String
  EndAttach : String
  Custodian : String
  DuplicateCustodian : String
  OriginalFilePath : String
  Subject : Option MetaVal
  Title : Option MetaVal
  Author : Option MetaVal
  From : Option MetaVal
  To : Option MetaVal
  CC : Option MetaVal
  BCC : Option MetaVal
  DateSent : Option MetaVal
  TimeSent : Option MetaVal
  DateReceived : Option MetaVal
  TimeReceived : Option MetaVal
  DateCreated : Option String
  TimeCreated : Option String
  DateLastModified : Option MetaVal
  MessageID : Option MetaVal
  ThreadIndex : Option MetaVal
  ForeignLanguage : MetaVal
  PageCount : Option MetaVal
  charsperpage : Option MetaVal
  charcount : Option MetaVal
  Confidentiality : MetaVal
  Privilege : MetaVal
  RedactionType : String
  DocType : String
  FamilyID : String
  ParentID : String
  ProductionVolume : String
deriving DecidableEq, Repr

/-- The `doc_entry` literal of `process_single_file` (lines 543–583). -/
def buildDoc (assignments : List (String × String)) ( pfx : String)
    (bates_counter : Nat) (volume_name custodian productionVolume : String)
    (identifyFamily : Option String) (fname : String)
    (family_id : Option String) (parsed : ParseResult) : DocEntry :=
  let BegBates := get_bates_for_file assignments pfx bates_counter fname
  let ext := (splitext fname).2
  let md := parsed.metadata
  let final_family :=
    match family_id with
    | some s => if s = "" then identifyFamily else some s
    | none => identifyFamily
  let subdir :=
    if extTag fname = "tif" ∨ extTag fname = "tiff" ∨ extTag fname = "jpg" ∨
      extTag fname = "jpeg" ∨ extTag fname = "png"
    then "IMAGES" else "NATIVES"
  { BegBates := BegBates
    EndBates := BegBates
    HashValue := md5Hex fname
    FileExtension := String.mk (ext.data.drop 1)
    Filename := basename fname
    NativeLocation := joinPath [volume_name, subdir, "0000", BegBates ++ ext]
    TextLocation := joinPath [volume_name, "TEXT", "0000", BegBates ++ ".txt"]
    BegAttach := ""
    EndAttach := ""
    Custodian := custodian
    DuplicateCustodian := ""
    OriginalFilePath := ""
    Subject := metaGet md "Subject"
    Title := metaField md "title" (extTag fname)
    Author := metaField md "Author" (extTag fname)
    From := metaField md "From" (extTag fname)
    To := metaField md "To" (extTag fname)
    CC := metaField md "CC" (extTag fname)
    BCC := metaField md "BCC" (extTag fname)
    DateSent := metaField md "DateSent" (extTag fname)
    TimeSent := metaField md "TimeSent" (extTag fname)
    DateReceived := metaField md "DateReceived" (extTag fname)
    TimeReceived := metaField md "TimeReceived" (extTag fname)
    DateCreated :=
      (match metaGet md "Creation-Date" with
       | none => none
       | some v => convert_date_safe (some v))
    TimeCreated :=
      (match metaGet md "Creation-Date" with
       | none => none
       | some v => convert_time_safe (some v))
    DateLastModified := metaGet md "Last-Modified"
    MessageID := metaField md "Message-ID" (extTag fname)
    ThreadIndex := metaField md "Thread-Index" (extTag fname)
    ForeignLanguage := metaGetD md "Foreign Language" (.str "")
    PageCount := metaField md "Page Count" (extTag fname)
    charsperpage := metaField md "charsperpage" (extTag fname)
    charcount := metaField md "charcount" (extTag fname)
    Confidentiality := metaGetD md "Confidentiality" (.str "")
    Privilege := metaGetD md "Privilege" (.str "")
    RedactionType := determine_redaction_type fname md
    DocType := determine_document_type fname
    FamilyID := (match final_family with | some s => s | none => "")
    ParentID := ""
    ProductionVolume := productionVolume }

/-- `process_single_file`: `none` models a failed task (extraction raised),
which appends no record. -/
def process_single_file (assignments : List (String × String)) ( pfx : String)
    (bates_counter : Nat) (volume_name custodian productionVolume : String)
    (parseFile : String → Option ParseResult) (identifyFamily : Option String)
    (fname : String) (family_id : Option String) : Option DocEntry :=
  (parseFile fname).map
    (buildDoc assignments pfx bates_counter volume_name custodian
      productionVolume identifyFamily fname family_id)

/-- The records accumulated by a run, in the (arbitrary) order in which
worker tasks completed; failed tasks append nothing. -/
def runDocs (assignments : List (String × String)) ( pfx : String)
    (bates_counter : Nat) (volume_name custodian productionVolume : String)
    (parseFile : String → Option ParseResult)
    (identifyFamily : String → Option String)
    (tasks : List (String × Option String)) : List DocEntry :=
  tasks.filterMap (fun t =>
    process_single_file assignments pfx bates_counter volume_name custodian
      productionVolume parseFile (identifyFamily t.1) t.1 t.2)

/-- The column-indexed view of a record that `write_loadfile` serializes:
`doc.get(c, '')` with `None` kept as `none` (and `''` for a key outside the
dict). -/
def docToVals (d : DocEntry) (c : String) : Option String :=
  if c = "BegBates" then some d.BegBates
  else if c = "EndBates" then some d.EndBates
  else if c = "HashValue" then some d.HashValue
  else if c = "FileExtension" then some d.FileExtension
  else if c = "Filename" then some d.Filename
  else if c = "NativeLocation" then some d.NativeLocation
  else if c = "TextLocation" then some d.TextLocation
  else if c = "BegAttach" then some d.BegAttach
  else if c = "EndAttach" then some d.EndAttach
  else if c = "Custodian" then some d.Custodian
  else if c = "Duplicate Custodian" then some d.DuplicateCustodian
  else if c = "Original FilePath" then some d.OriginalFilePath
  else if c = "Subject" then d.Subject.map pyStr
  else if c = "Title" then d.Title.map pyStr
  else if c = "Author" then d.Author.map pyStr
  else if c = "From" then d.From.map pyStr
  else if c = "To" then d.To.map pyStr
  else if c = "CC" then d.CC.map pyStr
  else if c = "BCC" then d.BCC.map pyStr
  else if c = "DateSent" then d.DateSent.map pyStr
  else if c = "TimeSent" then d.TimeSent.map pyStr
  else if c = "DateReceived" then d.DateReceived.map pyStr
  else if c = "TimeReceived" then d.TimeReceived.map pyStr
  else if c = "DateCreated" then d.DateCreated
  else if c = "TimeCreated" then d.TimeCreated
  else if c = "DateLastModified" then d.DateLastModified.map pyStr
  else if c = "Message-ID" then d.MessageID.map pyStr
  else if c = "Thread-Index" then d.ThreadIndex.map pyStr
  else if c = "Foreign Language" then some (pyStr d.ForeignLanguage)
  else if c = "Page Count" then d.PageCount.map pyStr
  else if c = "charsperpage" then d.charsperpage.map pyStr
  else if c = "charcount" then d.charcount.map pyStr
  else if c = "Confidentiality" then some (pyStr d.Confidentiality)
  else if c = "Privilege" then some (pyStr d.Privilege)
  else if c = "RedactionType" then some d.RedactionType
  else if c = "DocType" then some d.DocType
  else if c = "FamilyID" then some d.FamilyID
  else if c = "ParentID" then some d.ParentID
  else if c = "Production Volume" then some d.ProductionVolume
  else some ""

/-- C5. Every record a run accumulates has `EndBates = BegBates` — the dict
literal sets `'EndBates': BegBates` and no later pipeline operation mutates
a record (the "will be updated for multi-page documents" comment
notwithstanding), so at serialization time the written `EndBates` column
equals the `BegBates` column, page expansion or not. -/
theorem c5_endbates_equals_begbates (assignments : List (String × String))
    ( pfx : String) (bates_counter : Nat)
    (volume_name custodian productionVolume : String)
    (parseFile : String → Option ParseResult)
    (identifyFamily : String → Option String)
    (tasks : List (String × Option String)) :
    ∀ d ∈ runDocs assignments pfx bates_counter volume_name custodian
        productionVolume parseFile identifyFamily tasks,
      d.EndBates = d.BegBates ∧
      docToVals d "EndBates" = docToVals d "BegBates" := by
  intro d hd
  rcases List.mem_filterMap.mp hd with ⟨t, _, hsome⟩
  unfold process_single_file at hsome
  rcases Option.map_eq_some'.mp hsome with ⟨p, _, hbuild⟩
  have hEnd : d.EndBates = d.BegBates := by
    rw [← hbuild]
    rfl
  refine ⟨hEnd, ?_⟩
  have h1 : docToVals d "EndBates" = some d.EndBates := by
    simp [docToVals]
  have h2 : docToVals d "BegBates" = some d.BegBates := by
    simp [docToVals]
  rw [h1, h2, hEnd]

/-- Witness for C5: the single doc of a concrete one-file run (a PDF with a
multi-page-style creation date) satisfies both equalities. -/
theorem c5_endbates_equals_begbates_witness :
    buildDoc (bates_assignments "PL" 8378 ["in/a.pdf"]) "PL" 8378 "V" "" "PV"
        none "in/a.pdf" none
        (ParseResult.mk [("Creation-Date", MetaVal.str "2023-01-02T03:04:05Z")]
          (some "text")) ∈
      runDocs (bates_assignments "PL" 8378 ["in/a.pdf"]) "PL" 8378 "V" "" "PV"
        (fun _ => some
          (ParseResult.mk [("Creation-Date", MetaVal.str "2023-01-02T03:04:05Z")]
            (some "text")))
        (fun _ => none) [("in/a.pdf", none)] ∧
    ((buildDoc (bates_assignments "PL" 8378 ["in/a.pdf"]) "PL" 8378 "V" "" "PV"
        none "in/a.pdf" none
        (ParseResult.mk [("Creation-Date", MetaVal.str "2023-01-02T03:04:05Z")]
          (some "text"))).EndBates =
      (buildDoc (bates_assignments "PL" 8378 ["in/a.pdf"]) "PL" 8378 "V" "" "PV"
        none "in/a.pdf" none
        (ParseResult.mk [("Creation-Date", MetaVal.str "2023-01-02T03:04:05Z")]
          (some "text"))).BegBates ∧
    docToVals (buildDoc (bates_assignments "PL" 8378 ["in/a.pdf"]) "PL" 8378 "V"
        "" "PV" none "in/a.pdf" none
        (ParseResult.mk [("Creation-Date", MetaVal.str "2023-01-02T03:04:05Z")]
          (some "text"))) "EndBates" =
      docToVals (buildDoc (bates_assignments "PL" 8378 ["in/a.pdf"]) "PL" 8378 "V"
        "" "PV" none "in/a.pdf" none
        (ParseResult.mk [("Creation-Date", MetaVal.str "2023-01-02T03:04:05Z")]
          (some "text"))) "BegBates") :=
  have hmem : buildDoc (bates_assignments "PL" 8378 ["in/a.pdf"]) "PL" 8378 "V" ""
      "PV" none "in/a.pdf" none
      (ParseResult.mk [("Creation-Date", MetaVal.str "2023-01-02T03:04:05Z")]
        (some "text")) ∈
      runDocs (bates_assignments "PL" 8378 ["in/a.pdf"]) "PL" 8378 "V" "" "PV"
        (fun _ => some
          (ParseResult.mk [("Creation-Date", MetaVal.str "2023-01-02T03:04:05Z")]
            (some "text")))
        (fun _ => none) [("in/a.pdf", none)] := List.mem_cons_self _ _
  ⟨hmem,
    c5_endbates_equals_begbates (bates_assignments "PL" 8378 ["in/a.pdf"]) "PL"
      8378 "V" "" "PV"
      (fun _ => some
        (ParseResult.mk [("Creation-Date", MetaVal.str "2023-01-02T03:04:05Z")]
          (some "text")))
      (fun _ => none) [("in/a.pdf", none)] _ hmem⟩

/-- Counterexample to C2 as stated: `HashValue` is
`hashlib.md5(fname.encode()).hexdigest()` — a hash of the file *path
string*, not of the file's bytes. Changing the file's contents (here: the
extraction collaborator returns content `"AAAA"` vs `"BBBB"` for the same
path) leaves `HashValue` unchanged, while two files with identical contents
but different names receive different `HashValue`s. -/
theorem c2_counterexample :
    (process_single_file (bates_assignments "PL" 8378 ["in/a.txt", "in/b.txt"])
        "PL" 8378 "V" "" "PV" (fun _ => some (ParseResult.mk [] (some "AAAA")))
        none "in/a.txt" none).map (fun d => d.HashValue) =
      (process_single_file (bates_assignments "PL" 8378 ["in/a.txt", "in/b.txt"])
        "PL" 8378 "V" "" "PV" (fun _ => some (ParseResult.mk [] (some "BBBB")))
        none "in/a.txt" none).map (fun d => d.HashValue) ∧
    (some (ParseResult.mk [] (some "AAAA")) : Option ParseResult) ≠
      some (ParseResult.mk [] (some "BBBB")) ∧
    (process_single_file (bates_assignments "PL" 8378 ["in/a.txt", "in/b.txt"])
        "PL" 8378 "V" "" "PV" (fun _ => some (ParseResult.mk [] (some "AAAA")))
        none "in/a.txt" none).map (fun d => d.HashValue) ≠
      (process_single_file (bates_assignments "PL" 8378 ["in/a.txt", "in/b.txt"])
        "PL" 8378 "V" "" "PV" (fun _ => some (ParseResult.mk [] (some "AAAA")))
        none "in/b.txt" none).map (fun d => d.HashValue) := by
  refine ⟨rfl, by decide, by decide⟩

/-- C2 amended: the `HashValue` of every successfully processed file is the
MD5 hex digest of the file's path string — a function of the file name
alone: it does not depend on the extraction result (hence not on the file's
stored bytes), and is produced by the same `md5Hex` for every collaborator. -/
theorem c2_hashvalue_is_path_hash (assignments : List (String × String))
    ( pfx : String) (bates_counter : Nat)
    (volume_name custodian productionVolume : String)
    (parseFile : String → Option ParseResult) (identifyFamily : Option String)
    (fname : String) (family_id : Option String) (d : DocEntry)
    (h : process_single_file assignments pfx bates_counter volume_name custodian
      productionVolume parseFile identifyFamily fname family_id = some d) :
    d.HashValue = md5Hex fname ∧
    (∀ (parsed1 parsed2 : ParseResult) (fam1 fam2 idf1 idf2 : Option String),
      (buildDoc assignments pfx bates_counter volume_name custodian
        productionVolume idf1 fname fam1 parsed1).HashValue =
      (buildDoc assignments pfx bates_counter volume_name custodian
        productionVolume idf2 fname fam2 parsed2).HashValue) := by
  unfold process_single_file at h
  rcases Option.map_eq_some'.mp h with ⟨p, _, hbuild⟩
  constructor
  · rw [← hbuild]
    rfl
  · intro _ _ _ _ _ _
    rfl

/-- Witness for the amended C2 at a concrete successful run. -/
theorem c2_hashvalue_is_path_hash_witness :
    (process_single_file (bates_assignments "PL" 8378 ["in/a.txt"]) "PL" 8378
        "V" "" "PV" (fun _ => some (ParseResult.mk [] (some "AAAA"))) none
        "in/a.txt" none =
      some (buildDoc (bates_assignments "PL" 8378 ["in/a.txt"]) "PL" 8378 "V" ""
        "PV" none "in/a.txt" none (ParseResult.mk [] (some "AAAA")))) ∧
    ((buildDoc (bates_assignments "PL" 8378 ["in/a.txt"]) "PL" 8378 "V" "" "PV"
        none "in/a.txt" none (ParseResult.mk [] (some "AAAA"))).HashValue =
      md5Hex "in/a.txt" ∧
    (∀ (parsed1 parsed2 : ParseResult) (fam1 fam2 idf1 idf2 : Option String),
      (buildDoc (bates_assignments "PL" 8378 ["in/a.txt"]) "PL" 8378 "V" "" "PV"
        idf1 "in/a.txt" fam1 parsed1).HashValue =
      (buildDoc (bates_assignments "PL" 8378 ["in/a.txt"]) "PL" 8378 "V" "" "PV"
        idf2 "in/a.txt" fam2 parsed2).HashValue)) :=
  ⟨rfl,
    c2_hashvalue_is_path_hash (bates_assignments "PL" 8378 ["in/a.txt"]) "PL"
      8378 "V" "" "PV" (fun _ => some (ParseResult.mk [] (some "AAAA"))) none
      "in/a.txt" none _ rfl⟩

theorem takeWhile_of_all (p : Char → Bool) (s : List Char)
    (hs : s.all p = true) : s.takeWhile p = s := by
  induction s with
  | nil => rfl
  | cons c cs ih =>
    simp only [List.all_cons, Bool.and_eq_true] at hs
    rw [List.takeWhile_cons, if_pos hs.1, ih hs.2]

theorem dropWhile_of_all (p : Char → Bool) (s : List Char)
    (hs : s.all p = true) : s.dropWhile p = [] := by
  induction s with
  | nil => rfl
  | cons c cs ih =>
    simp only [List.all_cons, Bool.and_eq_true] at hs
    rw [List.dropWhile_cons, if_pos hs.1, ih hs.2]

theorem takeWhile_digits_append (s t : List Char)
    (hs : s.all Char.isDigit = true)
    (ht : ∀ c, t.head? = some c → c.isDigit = false) :
    (s ++ t).takeWhile Char.isDigit = s := by
  rw [List.takeWhile_append, takeWhile_of_all _ _ hs, if_pos rfl]
  match t with
  | [] => simp
  | c :: rest =>
    rw [List.takeWhile_cons, if_neg (by rw [ht c rfl]; simp), List.append_nil]

theorem dropWhile_digits_append (s t : List Char)
    (hs : s.all Char.isDigit = true)
    (ht : ∀ c, t.head? = some c → c.isDigit = false) :
    (s ++ t).dropWhile Char.isDigit = t := by
  rw [List.dropWhile_append, dropWhile_of_all _ _ hs]
  simp only [List.isEmpty_nil, if_pos]
  match t with
  | [] => rfl
  | c :: rest =>
    rw [List.dropWhile_cons, if_neg (by rw [ht c rfl]; simp)]

theorem toDecAux_length_le :
    ∀ fuel n k, 1 ≤ k → n < 10 ^ k → (toDecAux fuel n).length ≤ k := by
  intro fuel
  induction fuel with
  | zero => intro n k hk _; simp [toDecAux]
  | succ f ih =>
    intro n k hk hn
    by_cases h : n < 10
    · simp only [toDecAux, if_pos h, List.length_singleton]
      omega
    · have hk2 : 2 ≤ k := by
        by_contra hlt
        have : k = 1 := by omega
        subst this
        simp at hn
        omega
      have hdiv : n / 10 < 10 ^ (k - 1) := by
        rw [Nat.div_lt_iff_lt_mul (by omega)]
        calc n < 10 ^ k := hn
        _ = 10 ^ (k - 1) * 10 := by
          rw [← pow_succ]
          congr 1
          omega
      have := ih (n / 10) (k - 1) (by omega) hdiv
      simp only [toDecAux, if_neg h, List.length_append, List.length_singleton]
      omega

theorem padLeft_length_eq (w : Nat) (s : List Char) (h : s.length ≤ w) :
    (padLeft w s).length = w := by
  unfold padLeft
  rw [List.length_append, List.length_replicate]
  omega

theorem pad2_length {n : Nat} (h : n < 100) : (pad2 n).length = 2 :=
  padLeft_length_eq 2 _ (toDecAux_length_le (n + 1) n 2 (by omega) (by omega))

theorem pad4_length {n : Nat} (h : n < 10000) : (pad4 n).length = 4 :=
  padLeft_length_eq 4 _ (toDecAux_length_le (n + 1) n 4 (by omega) (by omega))

theorem pad2_all_digit (n : Nat) : (pad2 n).all Char.isDigit = true :=
  padLeft_all_digit 2 _ (toDec_all_digit n)

theorem pad4_all_digit (n : Nat) : (pad4 n).all Char.isDigit = true :=
  padLeft_all_digit 4 _ (toDec_all_digit n)

theorem matchesDatePattern_strftime (dt : PyDateTime) (hm : dt.month < 100)
    (hd : dt.day < 100) (hy : dt.year < 10000) :
    matchesDatePattern (strftime_date dt) = true := by
  have hslash : ∀ (r : List Char) c, ('/' :: r).head? = some c → c.isDigit = false := by
    intro r c hc
    injection hc with hc
    rw [← hc]
    rfl
  have hL : matchesDatePattern (strftime_date dt) =
      matchesDatePatternL
        (pad2 dt.month ++ '/' :: (pad2 dt.day ++ '/' :: pad4 dt.year)) := by
    unfold matchesDatePattern strftime_date
    simp only [List.cons_append, List.append_assoc]
  rw [hL]
  unfold matchesDatePatternL
  rw [takeWhile_digits_append _ _ (pad2_all_digit dt.month) (hslash _),
    dropWhile_digits_append _ _ (pad2_all_digit dt.month) (hslash _)]
  simp only []
  rw [takeWhile_digits_append _ _ (pad2_all_digit dt.day) (hslash _),
    dropWhile_digits_append _ _ (pad2_all_digit dt.day) (hslash _)]
  simp only []
  rw [takeWhile_of_all _ _ (pad4_all_digit dt.year),
    dropWhile_of_all _ _ (pad4_all_digit dt.year)]
  rw [decide_eq_true_eq]
  refine ⟨?_, ?_, ?_, ?_, pad4_length hy, rfl⟩ <;> rw [pad2_length (by omega)] <;> omega

theorem matchesTimePattern_strftime (dt : PyDateTime) (hh : dt.hour < 100)
    (hm : dt.minute < 100) (hs : dt.second < 100) :
    matchesTimePattern (strftime_time dt) = true := by
  have hcolon : ∀ (r : List Char) c, (':' :: r).head? = some c → c.isDigit = false := by
    intro r c hc
    injection hc with hc
    rw [← hc]
    rfl
  have hL : matchesTimePattern (strftime_time dt) =
      matchesTimePatternL
        (pad2 dt.hour ++ ':' :: (pad2 dt.minute ++ ':' :: pad2 dt.second)) := by
    unfold matchesTimePattern strftime_time
    simp only [List.cons_append, List.append_assoc]
  rw [hL]
  unfold matchesTimePatternL
  rw [takeWhile_digits_append _ _ (pad2_all_digit dt.hour) (hcolon _),
    dropWhile_digits_append _ _ (pad2_all_digit dt.hour) (hcolon _)]
  simp only []
  rw [takeWhile_digits_append _ _ (pad2_all_digit dt.minute) (hcolon _),
    dropWhile_digits_append _ _ (pad2_all_digit dt.minute) (hcolon _)]
  simp only []
  rw [takeWhile_of_all _ _ (pad2_all_digit dt.second),
    dropWhile_of_all _ _ (pad2_all_digit dt.second)]
  rw [decide_eq_true_eq]
  exact ⟨pad2_length hh, pad2_length hm, pad2_length hs, rfl⟩

theorem mkValidDT_bounds {y mo d hh mi ss : Nat} {dt : PyDateTime}
    (h : mkValidDT y mo d hh mi ss = some dt) :
    dt.month < 100 ∧ dt.day < 100 ∧ dt.year < 10000 ∧
    dt.hour < 100 ∧ dt.minute < 100 ∧ dt.second < 100 := by
  unfold mkValidDT at h
  split at h
  · injection h with h'
    subst h'
    rename_i hcond
    have hdm : daysInMonth y mo ≤ 31 := by
      unfold daysInMonth
      split
      · split <;> omega
      · split <;> omega
    simp only []
    omega
  · cases h

theorem strptime_iso_bounds {s : List Char} {dt : PyDateTime}
    (h : strptime_iso s = some dt) :
    dt.month < 100 ∧ dt.day < 100 ∧ dt.year < 10000 ∧
    dt.hour < 100 ∧ dt.minute < 100 ∧ dt.second < 100 := by
  unfold strptime_iso at h
  repeat' split at h
  all_goals first
    | exact absurd h (by simp)
    | exact mkValidDT_bounds h

theorem convert_none_iff (v : Option MetaVal) :
    convert_date_safe v = none ↔ convert_time_safe v = none := by
  unfold convert_date_safe convert_time_safe
  cases hci : convert_input v with
  | none => simp
  | some arg =>
    simp only []
    cases hst : strptime_iso arg with
    | none => simp [hst]
    | some dt => simp [hst]

theorem convert_date_safe_pattern {v : Option MetaVal} {out : String}
    (h : convert_date_safe v = some out) : matchesDatePattern out = true := by
  unfold convert_date_safe at h
  cases hci : convert_input v with
  | none => rw [hci] at h; cases h
  | some arg =>
    rw [hci] at h
    simp only [] at h
    cases hst : strptime_iso arg with
    | none => rw [hst] at h; cases h
    | some dt =>
      rw [hst] at h
      simp only [] at h
      injection h with h'
      subst h'
      obtain ⟨h1, h2, h3, _, _, _⟩ := strptime_iso_bounds hst
      exact matchesDatePattern_strftime dt h1 h2 h3

theorem convert_time_safe_pattern {v : Option MetaVal} {out : String}
    (h : convert_time_safe v = some out) : matchesTimePattern out = true := by
  unfold convert_time_safe at h
  cases hci : convert_input v with
  | none => rw [hci] at h; cases h
  | some arg =>
    rw [hci] at h
    simp only [] at h
    cases hst : strptime_iso arg with
    | none => rw [hst] at h; cases h
    | some dt =>
      rw [hst] at h
      simp only [] at h
      injection h with h'
      subst h'
      obtain ⟨_, _, _, h4, h5, h6⟩ := strptime_iso_bounds hst
      exact matchesTimePattern_strftime dt h4 h5 h6

theorem convert_input_list_head (x : String) (rest : List String) :
    convert_input (some (.list (x :: rest))) = convert_input (some (.str x)) := by
  show preprocessCore x.data = if x.data = [] then none else preprocessCore x.data
  by_cases hx : x.data = []
  · rw [if_pos hx, hx]
    rfl
  · rw [if_neg hx]

/-- Counterexample to C7 as stated: for an `.eml` file whose metadata
carries `Date = "2023-01-02T03:04:05Z"`, the record's `DateSent` field is
that raw metadata value — it is not produced by the date/time parser (whose
output would be `01/02/2023`) and does not match the `MM/DD/YYYY` pattern,
so not every date-valued field goes through the parser. -/
theorem c7_counterexample :
    docToVals (buildDoc (bates_assignments "PL" 8378 ["mail1.eml"]) "PL" 8378
        "V" "" "PV" none "mail1.eml" none
        (ParseResult.mk [("Date", MetaVal.str "2023-01-02T03:04:05Z")]
          (some "body"))) "DateSent" =
      some "2023-01-02T03:04:05Z" ∧
    matchesDatePattern "2023-01-02T03:04:05Z" = false ∧
    (buildDoc (bates_assignments "PL" 8378 ["mail1.eml"]) "PL" 8378 "V" "" "PV"
        none "mail1.eml" none
        (ParseResult.mk [("Date", MetaVal.str "2023-01-02T03:04:05Z")]
          (some "body"))).DateSent ≠
      (convert_date_safe
        (metaGet [("Date", MetaVal.str "2023-01-02T03:04:05Z")] "Date")).map
          MetaVal.str := by
  refine ⟨by decide, by decide, by decide⟩

theorem buildDoc_DateCreated (assignments : List (String × String))
    ( pfx : String) (bates_counter : Nat)
    (volume_name custodian productionVolume : String)
    (identifyFamily : Option String) (fname : String)
    (family_id : Option String) (parsed : ParseResult) :
    (buildDoc assignments pfx bates_counter volume_name custodian
        productionVolume identifyFamily fname family_id parsed).DateCreated =
      (match metaGet parsed.metadata "Creation-Date" with
       | none => none
       | some w => convert_date_safe (some w)) := rfl

theorem buildDoc_TimeCreated (assignments : List (String × String))
    ( pfx : String) (bates_counter : Nat)
    (volume_name custodian productionVolume : String)
    (identifyFamily : Option String) (fname : String)
    (family_id : Option String) (parsed : ParseResult) :
    (buildDoc assignments pfx bates_counter volume_name custodian
        productionVolume identifyFamily fname family_id parsed).TimeCreated =
      (match metaGet parsed.metadata "Creation-Date" with
       | none => none
       | some w => convert_time_safe (some w)) := rfl

theorem buildDoc_DateSent (assignments : List (String × String))
    ( pfx : String) (bates_counter : Nat)
    (volume_name custodian productionVolume : String)
    (identifyFamily : Option String) (fname : String)
    (family_id : Option String) (parsed : ParseResult) :
    (buildDoc assignments pfx bates_counter volume_name custodian
        productionVolume identifyFamily fname family_id parsed).DateSent =
      metaField parsed.metadata "DateSent" (extTag fname) := by
  simp only [buildDoc]

theorem buildDoc_TimeSent (assignments : List (String × String))
    ( pfx : String) (bates_counter : Nat)
    (volume_name custodian productionVolume : String)
    (identifyFamily : Option String) (fname : String)
    (family_id : Option String) (parsed : ParseResult) :
    (buildDoc assignments pfx bates_counter volume_name custodian
        productionVolume identifyFamily fname family_id parsed).TimeSent =
      metaField parsed.metadata "TimeSent" (extTag fname) := by
  simp only [buildDoc]

theorem buildDoc_DateReceived (assignments : List (String × String))
    ( pfx : String) (bates_counter : Nat)
    (volume_name custodian productionVolume : String)
    (identifyFamily : Option String) (fname : String)
    (family_id : Option String) (parsed : ParseResult) :
    (buildDoc assignments pfx bates_counter volume_name custodian
        productionVolume identifyFamily fname family_id parsed).DateReceived =
      metaField parsed.metadata "DateReceived" (extTag fname) := by
  simp only [buildDoc]

theorem buildDoc_TimeReceived (assignments : List (String × String))
    ( pfx : String) (bates_counter : Nat)
    (volume_name custodian productionVolume : String)
    (identifyFamily : Option String) (fname : String)
    (family_id : Option String) (parsed : ParseResult) :
    (buildDoc assignments pfx bates_counter volume_name custodian
        productionVolume identifyFamily fname family_id parsed).TimeReceived =
      metaField parsed.metadata "TimeReceived" (extTag fname) := by
  simp only [buildDoc]

theorem buildDoc_DateLastModified (assignments : List (String × String))
    ( pfx : String) (bates_counter : Nat)
    (volume_name custodian productionVolume : String)
    (identifyFamily : Option String) (fname : String)
    (family_id : Option String) (parsed : ParseResult) :
    (buildDoc assignments pfx bates_counter volume_name custodian
        productionVolume identifyFamily fname family_id parsed).DateLastModified =
      metaGet parsed.metadata "Last-Modified" := by
  simp only [buildDoc]

/-- C7 amended: only `DateCreated` and `TimeCreated` are produced by the
single date/time parser (`convert_date_safe` / `convert_time_safe`), while
`DateSent`, `TimeSent`, `DateReceived`, `TimeReceived` and
`DateLastModified` are stored as raw metadata values. The parser itself
accepts a single string or the first element of a list, on any failure
yields `None` for both date and time without raising (it is a total
function), and every non-`None` output matches `MM/DD/YYYY` (date) resp.
`HH:MM:SS` (time). -/
theorem c7_date_fields_and_converter (assignments : List (String × String))
    ( pfx : String) (bates_counter : Nat)
    (volume_name custodian productionVolume : String)
    (identifyFamily : Option String) (fname : String)
    (family_id : Option String) (parsed : ParseResult) (v : Option MetaVal) :
    (buildDoc assignments pfx bates_counter volume_name custodian
        productionVolume identifyFamily fname family_id parsed).DateCreated =
      (match metaGet parsed.metadata "Creation-Date" with
       | none => none
       | some w => convert_date_safe (some w)) ∧
    (buildDoc assignments pfx bates_counter volume_name custodian
        productionVolume identifyFamily fname family_id parsed).TimeCreated =
      (match metaGet parsed.metadata "Creation-Date" with
       | none => none
       | some w => convert_time_safe (some w)) ∧
    (buildDoc assignments pfx bates_counter volume_name custodian
        productionVolume identifyFamily fname family_id parsed).DateSent =
      metaField parsed.metadata "DateSent" (extTag fname) ∧
    (buildDoc assignments pfx bates_counter volume_name custodian
        productionVolume identifyFamily fname family_id parsed).TimeSent =
      metaField parsed.metadata "TimeSent" (extTag fname) ∧
    (buildDoc assignments pfx bates_counter volume_name custodian
        productionVolume identifyFamily fname family_id parsed).DateReceived =
      metaField parsed.metadata "DateReceived" (extTag fname) ∧
    (buildDoc assignments pfx bates_counter volume_name custodian
        productionVolume identifyFamily fname family_id parsed).TimeReceived =
      metaField parsed.metadata "TimeReceived" (extTag fname) ∧
    (buildDoc assignments pfx bates_counter volume_name custodian
        productionVolume identifyFamily fname family_id parsed).DateLastModified =
      metaGet parsed.metadata "Last-Modified" ∧
    (convert_date_safe v = none ↔ convert_time_safe v = none) ∧
    (∀ out, convert_date_safe v = some out → matchesDatePattern out = true) ∧
    (∀ out, convert_time_safe v = some out → matchesTimePattern out = true) ∧
    (∀ (x : String) (rest : List String),
      convert_date_safe (some (.list (x :: rest))) =
        convert_date_safe (some (.str x)) ∧
      convert_time_safe (some (.list (x :: rest))) =
        convert_time_safe (some (.str x))) := by
  refine ⟨buildDoc_DateCreated _ _ _ _ _ _ _ _ _ _,
    buildDoc_TimeCreated _ _ _ _ _ _ _ _ _ _,
    buildDoc_DateSent _ _ _ _ _ _ _ _ _ _,
    buildDoc_TimeSent _ _ _ _ _ _ _ _ _ _,
    buildDoc_DateReceived _ _ _ _ _ _ _ _ _ _,
    buildDoc_TimeReceived _ _ _ _ _ _ _ _ _ _,
    buildDoc_DateLastModified _ _ _ _ _ _ _ _ _ _,
    convert_none_iff v,
    fun out h => convert_date_safe_pattern h,
    fun out h => convert_time_safe_pattern h,
    fun x rest => ⟨?_, ?_⟩⟩
  · unfold convert_date_safe
    rw [convert_input_list_head]
  · unfold convert_time_safe
    rw [convert_input_list_head]

/-- Witness for the amended C7: concrete parser outputs match the canonical
patterns (fractional suffix stripped, `Z` appended when absent), obtained by
applying the amended theorem's pattern conjuncts at concrete inputs. -/
theorem c7_date_fields_and_converter_witness :
    matchesDatePattern "01/02/2023" = true ∧
    matchesTimePattern "03:04:05" = true ∧
    convert_date_safe (some (.str "2023-01-02T03:04:05.123Z")) =
      some "01/02/2023" ∧
    convert_time_safe (some (.str "2023-01-02T03:04:05")) = some "03:04:05" :=
  ⟨(c7_date_fields_and_converter [] "PL" 8378 "V" "" "PV" none "mail1.eml" none
      (ParseResult.mk [] none)
      (some (.str "2023-01-02T03:04:05.123Z"))).2.2.2.2.2.2.2.2.1
    "01/02/2023" (by decide),
   (c7_date_fields_and_converter [] "PL" 8378 "V" "" "PV" none "mail1.eml" none
      (ParseResult.mk [] none)
      (some (.str "2023-01-02T03:04:05"))).2.2.2.2.2.2.2.2.2.1
    "03:04:05" (by decide),
   by decide, by decide⟩

/-! ### Email family grouping (`_group_email_files`)

The pass walks the file list, and for each `.msg`/`.eml`/`.pst` file either
derives a family key from the parsed metadata (thread-index, else
message-id via the nested `get` default, else subject, else sender) or — if
anything in the `try` raises, including the extraction call itself or
`hash()` applied to a list-valued metadata entry — falls back to a key
hashed from the file's basename. `h` models the interpreter's string
`hash` for this run (`hash` is process-seeded but fixed within one run). -/

/-- Python truthiness of a metadata value. -/
def mvTruthy : MetaVal → Bool
  | .str s => !s.data.isEmpty
  | .list xs => !xs.isEmpty

/-- `hash(x)` on a metadata value: defined on strings, raises `TypeError`
(`none`) on lists. -/
def pyHash (h : String → Int) : MetaVal → Option Int
  | .str s => some (h s)
  | .list _ => none

/-- `f"...{v % 10000:04d}"`: Python `%` on a positive modulus is the
euclidean remainder, then zero-padded to four digits. -/
def hmodFmt (n : Int) : String := String.mk (padLeft 4 (toDec (n % 10000).toNat))

/-- Is the file email-like (`os.path.splitext(fname)[1].lower()` in
`['.msg', '.eml', '.pst']`)? -/
def isEmailFile (fname : String) : Bool :=
  lowerStr (splitext fname).2 = ".msg" || lowerStr (splitext fname).2 = ".eml" ||
    lowerStr (splitext fname).2 = ".pst"

/-- The `try`-body key derivation for one email file with parsed metadata
(the `hash`-on-list `TypeError` routes to the same `except` fallback as an
extraction failure). -/
def emailKeyCore (h : String → Int) (md : Metadata) (fname : String) : String :=
  let thread := metaGetD md "Thread-Index" (metaGetD md "Message-ID" (.str ""))
  let subject := metaGetD md "Subject" (.str "")
  let from_addr := metaGetD md "From" (.str "")
  if mvTruthy thread then
    match pyHash h thread with
    | some n => "EMAIL_THREAD_" ++ hmodFmt n
    | none => "EMAIL_FILE_" ++ hmodFmt (h (basename fname))
  else if mvTruthy subject then
    match pyHash h subject with
    | some n => "EMAIL_SUBJECT_" ++ hmodFmt n
    | none => "EMAIL_FILE_" ++ hmodFmt (h (basename fname))
  else
    match pyHash h from_addr with
    | some n => "EMAIL_FROM_" ++ hmodFmt n
    | none => "EMAIL_FILE_" ++ hmodFmt (h (basename fname))

/-- The family key `_group_email_files` assigns to one file (`none` for a
non-email file, which the pass skips). -/
def emailFamilyKey (parse : String → Option Metadata) (h : String → Int)
    (fname : String) : Option String :=
  if isEmailFile fname then
    some (match parse fname with
      | some md => emailKeyCore h md fname
      | none => "EMAIL_FILE_" ++ hmodFmt (h (basename fname)))
  else none

/-- `email_families[family_key].append(fname)` on the defaultdict, as an
association list. -/
def addToFamily (fams : List (String × List String)) (k f : String) :
    List (String × List String) :=
  match fams with
  | [] => [(k, [f])]
  | (k0, fs) :: rest =>
    if k0 = k then (k0, fs ++ [f]) :: rest else (k0, fs) :: addToFamily rest k f

/-- `_group_email_files`: the family map after the whole pass. -/
def group_email_files (parse : String → Option Metadata) (h : String → Int)
    (files : List String) : List (String × List String) :=
  files.foldl (fun fams fname =>
    match emailFamilyKey parse h fname with
    | none => fams
    | some k => addToFamily fams k fname) []

/-- Occurrences of file `g` across all family member lists. -/
def famOccs (g : String) (fams : List (String × List String)) : Nat :=
  ((fams.map Prod.snd).flatten).count g

theorem famOccs_addToFamily (g k f : String) (fams : List (String × List String)) :
    famOccs g (addToFamily fams k f) = famOccs g fams + (if f = g then 1 else 0) := by
  induction fams with
  | nil =>
    unfold addToFamily famOccs
    simp [List.count_cons]
  | cons p rest ih =>
    match p with
    | (k0, fs) =>
      unfold addToFamily
      by_cases hk : k0 = k
      · rw [if_pos hk]
        unfold famOccs
        simp only [List.map_cons, List.flatten_cons, List.count_append]
        simp [List.count_cons]
        omega
      · rw [if_neg hk]
        unfold famOccs at ih ⊢
        simp only [List.map_cons, List.flatten_cons, List.count_append]
        rw [ih]
        omega

theorem famOccs_fold (parse : String → Option Metadata) (h : String → Int)
    (g : String) :
    ∀ (files : List String) (acc : List (String × List String)),
      famOccs g (files.foldl (fun fams fname =>
          match emailFamilyKey parse h fname with
          | none => fams
          | some k => addToFamily fams k fname) acc) =
        famOccs g acc + (files.filter (fun x => isEmailFile x)).count g := by
  intro files
  induction files with
  | nil => intro acc; simp
  | cons f fs ih =>
    intro acc
    simp only [List.foldl_cons]
    by_cases he : isEmailFile f = true
    · have hkey : emailFamilyKey parse h f =
          some (match parse f with
            | some md => emailKeyCore h md f
            | none => "EMAIL_FILE_" ++ hmodFmt (h (basename f))) := by
        unfold emailFamilyKey
        rw [if_pos he]
      rw [hkey]
      simp only []
      rw [ih, famOccs_addToFamily]
      rw [List.filter_cons, if_pos he]
      rw [List.count_cons]
      by_cases hg : f = g
      · simp [hg]
        omega
      · have : (f == g) = false := beq_eq_false_iff_ne.mpr hg
        simp [hg, this]
    · have hkey : emailFamilyKey parse h f = none := by
        unfold emailFamilyKey
        rw [if_neg he]
      rw [hkey]
      simp only []
      rw [ih]
      rw [List.filter_cons, if_neg he]

/-- C8. In `_group_email_files`: (1) two email-like files whose metadata
carries the same non-empty string `Thread-Index` value receive the same
family key; (2) a file for which metadata extraction raises still receives
a family key derived from the hash of its basename; (3) with distinct input
paths, every email-like file ends up in exactly one family (it occurs
exactly once across all family member lists). -/
theorem c8_email_family_grouping (parse : String → Option Metadata)
    (h : String → Int) :
    (∀ f1 f2 md1 md2 t, parse f1 = some md1 → parse f2 = some md2 →
      isEmailFile f1 = true → isEmailFile f2 = true →
      metaGet md1 "Thread-Index" = some (.str t) →
      metaGet md2 "Thread-Index" = some (.str t) →
      t ≠ "" →
      emailFamilyKey parse h f1 = emailFamilyKey parse h f2) ∧
    (∀ f, isEmailFile f = true → parse f = none →
      emailFamilyKey parse h f =
        some ("EMAIL_FILE_" ++ hmodFmt (h (basename f)))) ∧
    (∀ (files : List String), files.Nodup →
      ∀ f ∈ files, isEmailFile f = true →
        famOccs f (group_email_files parse h files) = 1) := by
  refine ⟨?_, ?_, ?_⟩
  · intro f1 f2 md1 md2 t hp1 hp2 he1 he2 ht1 ht2 htne
    have hkey : ∀ f md, parse f = some md → isEmailFile f = true →
        metaGet md "Thread-Index" = some (.str t) →
        emailFamilyKey parse h f = some ("EMAIL_THREAD_" ++ hmodFmt (h t)) := by
      intro f md hp he ht
      unfold emailFamilyKey
      rw [if_pos he, hp]
      simp only []
      unfold emailKeyCore
      have hgd : metaGetD md "Thread-Index" (metaGetD md "Message-ID" (.str "")) =
          .str t := by
        unfold metaGetD
        unfold metaGet at ht
        rw [ht]
        rfl
      rw [hgd]
      have hdata : t.data ≠ [] := by
        intro hd
        apply htne
        cases t with
        | mk l =>
          show String.mk l = ""
          simp only [String.data] at hd
          rw [hd]
      have htr : mvTruthy (.str t) = true := by
        have hemp : t.data.isEmpty = false := by
          cases hd : t.data with
          | nil => exact absurd hd hdata
          | cons a l => rfl
        show (!t.data.isEmpty) = true
        rw [hemp]
        rfl
      simp [pyHash, htr]
    rw [hkey f1 md1 hp1 he1 ht1, hkey f2 md2 hp2 he2 ht2]
  · intro f he hp
    unfold emailFamilyKey
    rw [if_pos he, hp]
  · intro files hnd f hmem hemail
    unfold group_email_files
    rw [famOccs_fold]
    have h1 : (files.filter (fun x => isEmailFile x)).count f = 1 := by
      apply List.count_eq_one_of_mem (hnd.filter _)
      rw [List.mem_filter]
      exact ⟨hmem, hemail⟩
    rw [h1]
    rfl

/-- Witness for C8: two `.eml` files with the same `Thread-Index` value
`T1`, one unparseable `.msg` file, and one non-email file; the grouping
assigns equal keys to the first two, a basename-hash key to the third, and
puts each email-like file in exactly one family. -/
theorem c8_email_family_grouping_witness :
    (emailFamilyKey
        (fun f => if f = "a.eml" then some [("Thread-Index", MetaVal.str "T1")]
          else if f = "b.eml" then some [("Thread-Index", MetaVal.str "T1")]
          else none)
        (fun s => Int.ofNat s.length) "a.eml" =
      emailFamilyKey
        (fun f => if f = "a.eml" then some [("Thread-Index", MetaVal.str "T1")]
          else if f = "b.eml" then some [("Thread-Index", MetaVal.str "T1")]
          else none)
        (fun s => Int.ofNat s.length) "b.eml") ∧
    (emailFamilyKey
        (fun f => if f = "a.eml" then some [("Thread-Index", MetaVal.str "T1")]
          else if f = "b.eml" then some [("Thread-Index", MetaVal.str "T1")]
          else none)
        (fun s => Int.ofNat s.length) "c.msg" =
      some ("EMAIL_FILE_" ++
        hmodFmt ((fun s : String => Int.ofNat s.length) (basename "c.msg")))) ∧
    famOccs "a.eml"
      (group_email_files
        (fun f => if f = "a.eml" then some [("Thread-Index", MetaVal.str "T1")]
          else if f = "b.eml" then some [("Thread-Index", MetaVal.str "T1")]
          else none)
        (fun s => Int.ofNat s.length) ["a.eml", "b.eml", "c.msg", "d.txt"]) = 1 :=
  ⟨(c8_email_family_grouping _ _).1 "a.eml" "b.eml"
      [("Thread-Index", MetaVal.str "T1")] [("Thread-Index", MetaVal.str "T1")]
      "T1" (by decide) (by decide) (by decide) (by decide) (by decide)
      (by decide) (by decide),
   (c8_email_family_grouping _ _).2.1 "c.msg" (by decide) (by decide),
   (c8_email_family_grouping _ _).2.2 ["a.eml", "b.eml", "c.msg", "d.txt"]
      (by decide) "a.eml" (by decide) (by decide)⟩

end LoadfileCreator
